import Mathlib

set_option autoImplicit false

/-!
Verification of the bayleaf-api authorization and request-transformation
pipeline, as a shallow embedding of the TypeScript sources.

JavaScript strings are modeled as lists of characters, fallible operations
return Option, and a thrown JavaScript exception that the code does not
catch is modeled with Except Unit (the error case is the propagating
exception).  Crypto primitives of the Web platform (HMAC-SHA256) are kept
abstract as function parameters, since the repository treats them as an
external collaborator.
-/

namespace Bayleaf

/-- JavaScript strings, modeled as lists of characters. -/
abbrev JStr := List Char

/-- Embed a Lean string literal as a JavaScript string value. -/
def js (s : String) : JStr := s.toList

/-- The whitespace class used by the regular expression backslash-s and by
String.prototype.trim, restricted to the ASCII range that can actually occur
in HTTP header values. -/
def jsWhitespace (c : Char) : Bool :=
  c == ' ' || c == '\t' || c == '\n' || c == '\r' || c == '\x0b' || c == '\x0c'

/-- String.prototype.trim: drop whitespace from both ends. -/
def trimChars (cs : JStr) : JStr :=
  ((cs.dropWhile jsWhitespace).reverse.dropWhile jsWhitespace).reverse

/-- String.prototype.toLowerCase, on the ASCII range used by the code. -/
def lowerChars (cs : JStr) : JStr := cs.map Char.toLower

/-- String.prototype.split with a one-character separator: always returns at
least one (possibly empty) piece, like the JavaScript original. -/
def splitOnChar (sep : Char) : JStr → List JStr
  | [] => [[]]
  | c :: cs =>
    if c = sep then [] :: splitOnChar sep cs
    else
      match splitOnChar sep cs with
      | [] => [[c]]
      | p :: ps => (c :: p) :: ps

/-- Value of a decimal digit character. -/
def natFromDigits (ds : JStr) : Nat :=
  ds.foldl (fun a c => a * 10 + (c.toNat - 48)) 0

/-- parseInt(s, 10): skip leading whitespace, optional sign, then the longest
run of decimal digits; no digits means NaN (modeled as none);
trailing garbage is ignored. -/
def jsParseIntDec (s : JStr) : Option Int :=
  let s1 := s.dropWhile jsWhitespace
  let signed : Bool × JStr :=
    match s1 with
    | '-' :: r => (true, r)
    | '+' :: r => (false, r)
    | _ => (false, s1)
  let ds := signed.2.takeWhile Char.isDigit
  if ds.isEmpty then none
  else some (if signed.1 then -(natFromDigits ds : Int) else (natFromDigits ds : Int))

/-- Hexadecimal digit test, as used by parseInt with radix 16. -/
def isHexDigitC (c : Char) : Bool :=
  c.isDigit || ('a' ≤ c && c ≤ 'f') || ('A' ≤ c && c ≤ 'F')

/-- Value of a hexadecimal digit character. -/
def hexDigitVal (c : Char) : Nat :=
  if c.isDigit then c.toNat - 48
  else if 'a' ≤ c && c ≤ 'f' then c.toNat - 87
  else c.toNat - 55

/-- Accumulate a hexadecimal digit string into a number. -/
def natFromHexDigits (ds : JStr) : Nat :=
  ds.foldl (fun a c => a * 16 + hexDigitVal c) 0

/-- parseInt(s, 16): skip leading whitespace, optional sign, optional 0x or 0X
marker, then the longest run of hex digits; no digits means NaN (none). -/
def jsParseIntHex (s : JStr) : Option Int :=
  let s1 := s.dropWhile jsWhitespace
  let signed : Bool × JStr :=
    match s1 with
    | '-' :: r => (true, r)
    | '+' :: r => (false, r)
    | _ => (false, s1)
  let s2 :=
    match signed.2 with
    | '0' :: 'x' :: r => r
    | '0' :: 'X' :: r => r
    | r => r
  let ds := s2.takeWhile isHexDigitC
  if ds.isEmpty then none
  else some (if signed.1 then -(natFromHexDigits ds : Int) else (natFromHexDigits ds : Int))

/-! ### IP range utilities (src/utils/ip.ts, the Campus Pass module) -/

/-- ipv4ToBigInt: split on dots, require exactly four parts, each a decimal
number in the byte range; fold into one 32-bit value.  Returns none (null)
on any malformed input, never throws. -/
def ipv4ToBigInt (ip : JStr) : Option Nat :=
  let parts := splitOnChar '.' ip
  if parts.length != 4 then none
  else
    parts.foldl
      (fun acc p =>
        match acc with
        | none => none
        | some r =>
          match jsParseIntDec p with
          | none => none
          | some n => if n < 0 || n > 255 then none else some (r * 256 + n.toNat))
      (some 0)

/-- Index of the first occurrence of two consecutive colons, as computed by
String.prototype.indexOf with a two-colon needle. -/
def firstDoubleColonIdx : JStr → Option Nat
  | [] => none
  | [_] => none
  | a :: b :: r =>
    if a = ':' && b = ':' then some 0
    else (firstDoubleColonIdx (b :: r)).map (· + 1)

/-- The group-expansion step of ipv6ToBigInt.  When the address contains a
double colon, the source computes missing = 8 - before - after and then calls
Array(missing): a negative count makes that constructor throw a RangeError,
which nothing in the module catches.  The thrown case is the error value. -/
def ipv6GroupStrings (ip : JStr) : Except Unit (List JStr) :=
  match firstDoubleColonIdx ip with
  | none => .ok (splitOnChar ':' ip)
  | some i =>
    let before := (splitOnChar ':' (ip.take i)).filter (fun p => !p.isEmpty)
    let after := (splitOnChar ':' (ip.drop (i + 2))).filter (fun p => !p.isEmpty)
    if before.length + after.length > 8 then .error ()
    else .ok (before ++ List.replicate (8 - before.length - after.length) (js "0") ++ after)

/-- ipv6ToBigInt: expand the double colon, require eight groups, parse each
group as hex (an empty group counts as zero), fold into one 128-bit value.
Propagates the RangeError of the expansion step. -/
def ipv6ToBigInt (ip : JStr) : Except Unit (Option Nat) :=
  match ipv6GroupStrings ip with
  | .error e => .error e
  | .ok parts =>
    if parts.length != 8 then .ok none
    else
      .ok (parts.foldl
        (fun acc p =>
          match acc with
          | none => none
          | some r =>
            match jsParseIntHex (if p.isEmpty then js "0" else p) with
            | none => none
            | some n => if n < 0 || n > 65535 then none else some (r * 65536 + n.toNat))
        (some 0))

/-- The CIDR mask of the source: zero when the length is zero, otherwise the
value of (~0n shifted left by w - len) masked to w bits, for 0 ≤ len ≤ w. -/
def cidrMask (w len : Nat) : Nat :=
  if len == 0 then 0 else 2 ^ w - 2 ^ (w - len)

/-- isIPInCIDR: family check by presence of a colon, then parse both sides,
validate the prefix length, and compare under the mask.  The IPv6 branch can
propagate the RangeError of ipv6ToBigInt. -/
def isIPInCIDR (ip cidr : JStr) : Except Unit Bool :=
  let parts := splitOnChar '/' cidr
  let rangeIP := parts.headD []
  let prefixLen? : Option Int := (parts.get? 1).bind jsParseIntDec
  let isV6 := ip.contains ':'
  let isRangeV6 := rangeIP.contains ':'
  if isV6 != isRangeV6 then .ok false
  else if isV6 then
    match ipv6ToBigInt ip with
    | .error e => .error e
    | .ok ipVal? =>
      match ipv6ToBigInt rangeIP with
      | .error e => .error e
      | .ok rangeVal? =>
        match ipVal?, rangeVal? with
        | some ipVal, some rangeVal =>
          match prefixLen? with
          | none => .ok false
          | some len =>
            if len < 0 || len > 128 then .ok false
            else
              let mask := cidrMask 128 len.toNat
              .ok ((ipVal &&& mask) == (rangeVal &&& mask))
        | _, _ => .ok false
  else
    match ipv4ToBigInt ip, ipv4ToBigInt rangeIP with
    | some ipVal, some rangeVal =>
      match prefixLen? with
      | none => .ok false
      | some len =>
        if len < 0 || len > 32 then .ok false
        else
          let mask := cidrMask 32 len.toNat
          .ok ((ipVal &&& mask) == (rangeVal &&& mask))
    | _, _ => .ok false

/-- Array.prototype.some with a callback that may throw: stops at the first
true result, propagates the first exception. -/
def someExc {α : Type} (f : α → Except Unit Bool) : List α → Except Unit Bool
  | [] => .ok false
  | x :: xs =>
    match f x with
    | .error e => .error e
    | .ok true => .ok true
    | .ok false => someExc f xs

/-- isOnCampus: empty config or empty address short-circuits to false;
otherwise split the comma list, trim, drop empties, and test each range. -/
def isOnCampus (ip rangesConfig : JStr) : Except Unit Bool :=
  if rangesConfig.isEmpty || ip.isEmpty then .ok false
  else
    someExc (fun r => isIPInCIDR ip r)
      (((splitOnChar ',' rangesConfig).map trimChars).filter (fun r => !r.isEmpty))

/-- The request header inputs that the client IP extraction reads. -/
structure ReqIP where
  cfConnectingIP : Option JStr
  xForwardedFor : Option JStr
deriving DecidableEq

/-- The environment bindings the auth and proxy modules read.  The two
prompt fields correspond to SYSTEM_PROMPT_PREFIX and CAMPUS_SYSTEM_PREFIX
in the source. -/
structure Env where
  CAMPUS_IP_RANGES : JStr
  CAMPUS_POOL_KEY : JStr
  SYSTEM_PROMPT_PFX : JStr
  CAMPUS_SYSTEM_PFX : JStr
deriving DecidableEq

/-- getClientIP: prefer CF-Connecting-IP, else the first comma-separated
entry of X-Forwarded-For trimmed, else the loopback fallback; an empty
string is falsy and falls through, as with the JavaScript or-chain. -/
def getClientIP (req : ReqIP) : JStr :=
  let cf : Option JStr :=
    match req.cfConnectingIP with
    | some s => if s.isEmpty then none else some s
    | none => none
  match cf with
  | some s => s
  | none =>
    let x : Option JStr :=
      match req.xForwardedFor with
      | some v =>
        let f := trimChars ((splitOnChar ',' v).headD [])
        if f.isEmpty then none else some f
      | none => none
    match x with
    | some f => f
    | none => js "127.0.0.1"

/-- isCampusPassEligible: both the range list and the pool key must be
configured (non-empty), and the client IP must be on campus. -/
def isCampusPassEligible (req : ReqIP) (env : Env) : Except Unit Bool :=
  if env.CAMPUS_IP_RANGES.isEmpty || env.CAMPUS_POOL_KEY.isEmpty then .ok false
  else isOnCampus (getClientIP req) env.CAMPUS_IP_RANGES

/-! ### Proxy token generation (src/utils/token.ts) and the key registry -/

/-- The fixed prefix of bayleaf proxy tokens; BAYLEAF_TOKEN_PREFIX in
src/constants.ts. -/
def BAYLEAF_TOKEN_PFX : JStr := js "sk-bayleaf-"

/-- Lowercase hexadecimal digit characters, as produced by
Number.prototype.toString with radix 16. -/
def hexDigitChar (n : Nat) : Char :=
  (js "0123456789abcdef").getD n '0'

/-- One random byte rendered as two lowercase hex characters, as in
b.toString(16).padStart(2, with a zero); exact for byte values below 256,
which is all a Uint8Array can hold. -/
def byteHex (b : Nat) : JStr :=
  [hexDigitChar ((b / 16) % 16), hexDigitChar (b % 16)]

/-- generateBayleafToken: the fixed prefix followed by the hex encoding of
the 16 random bytes drawn from the CSPRNG; the bytes are a parameter here
since randomness is external. -/
def generateBayleafToken (bytes : List Nat) : JStr :=
  BAYLEAF_TOKEN_PFX ++ bytes.flatMap byteHex

/-- One row of the user_keys table (migrations/0001_create_user_keys.sql). -/
structure UserKeyRow where
  email : JStr
  bayleaf_token : JStr
  or_key_hash : JStr
  or_key_secret : JStr
  revoked : Bool
  created_at : Nat
deriving DecidableEq

/-- The D1 table, rows in insertion order; email is the primary key and
bayleaf_token is unique, which the scenario theorems carry as hypotheses. -/
abbrev DB := List UserKeyRow

/-- SELECT * FROM user_keys WHERE email = ? AND revoked = 0, first row. -/
def findActiveByEmail (db : DB) (e : JStr) : Option UserKeyRow :=
  db.find? (fun r => r.email == e && !r.revoked)

/-- SELECT * FROM user_keys WHERE email = ? AND revoked = 1, first row. -/
def findRevokedByEmail (db : DB) (e : JStr) : Option UserKeyRow :=
  db.find? (fun r => r.email == e && r.revoked)

/-- SELECT * FROM user_keys WHERE bayleaf_token = ? AND revoked = 0. -/
def findActiveByToken (db : DB) (t : JStr) : Option UserKeyRow :=
  db.find? (fun r => r.bayleaf_token == t && !r.revoked)

/-! ### Auth resolution (src/utils/auth.ts) -/

/-- The AuthResult interface: forwarded authorization header value, campus
mode flag, resolved user email or null. -/
structure AuthResult where
  authorization : JStr
  isCampusMode : Bool
  userEmail : Option JStr
deriving DecidableEq

/-- Outcome of resolveAuth: a forwarding decision, an error Response with a
status and message, or an uncaught exception propagating to the global
error handler. -/
inductive ResolveResult where
  | decision (a : AuthResult)
  | httpError (status : Nat) (msg : JStr)
  | thrown
deriving DecidableEq

/-- The 401 message of the campus branch. -/
def authRequiredMsg : JStr :=
  js "API key required. On-campus users can omit the key or use \"campus\". Visit https://api.bayleaf.chat/ for a free personal key."

/-- The 401 message of the proxy-token branch. -/
def invalidKeyMsg : JStr := js "Invalid or revoked API key."

/-- The regular expression replace that strips a leading case-insensitive
Bearer marker followed by at least one whitespace character (greedy). -/
def stripBearer (s : JStr) : JStr :=
  if lowerChars (s.take 6) = js "bearer" &&
     (match s.drop 6 with
      | c :: _ => jsWhitespace c
      | [] => false) then
    (s.drop 6).dropWhile jsWhitespace
  else s

/-- The candidate key: header value with the Bearer marker stripped and the
result trimmed. -/
def candidateKey (h : JStr) : JStr := trimChars (stripBearer h)

/-- The campus branch of resolveAuth: consult isCampusPassEligible and
either forward the shared pool credential or issue the terminal 401; an
exception of the eligibility check propagates. -/
def campusBranch (req : ReqIP) (env : Env) : ResolveResult :=
  match isCampusPassEligible req env with
  | .error _ => .thrown
  | .ok true => .decision ⟨js "Bearer " ++ env.CAMPUS_POOL_KEY, true, none⟩
  | .ok false => .httpError 401 authRequiredMsg

/-- resolveAuth: no key, empty key or the literal campus keyword takes the
campus branch; a bayleaf-prefixed candidate is resolved against the
registry; anything else passes the raw header through unvalidated. -/
def resolveAuth (authHeader : Option JStr) (req : ReqIP) (env : Env) (db : DB) :
    ResolveResult :=
  match authHeader with
  | none => campusBranch req env
  | some h =>
    let k := candidateKey h
    if k.isEmpty || lowerChars k == js "campus" then campusBranch req env
    else if BAYLEAF_TOKEN_PFX.isPrefixOf k then
      match findActiveByToken db k with
      | none => .httpError 401 invalidKeyMsg
      | some row => .decision ⟨js "Bearer " ++ row.or_key_secret, false, some row.email⟩
    else .decision ⟨h, false, none⟩

/-! ### Key lifecycle routes (src/routes/key.ts, POST and DELETE on /key) -/

/-- The upstream view of a provisioned key, as far as the key routes read
it: its hash and whether it has been disabled. -/
structure ORKeyInfo where
  hash : JStr
  disabled : Bool
deriving DecidableEq

/-- The payload of a successful createKey call: hash plus the raw secret,
which is only available at creation time. -/
structure ORCreated where
  hash : JStr
  key : JStr
deriving DecidableEq

/-- Responses of the key routes that matter to the claims. -/
inductive KeyResponse where
  | conflict
  | serverError
  | created (key : JStr)
  | deleted
  | notFound
deriving DecidableEq

/-- The hash-and-secret pair taken from a createKey result; none when the
call failed or returned a falsy key (the bang-check in the handler). -/
def freshPair (createRes : Option ORCreated) : Option (JStr × JStr) :=
  match createRes with
  | none => none
  | some nk => if nk.key.isEmpty then none else some (nk.hash, nk.key)

/-- The hash-and-secret pair the handler settles on: reuse the revoked rows
upstream key when it is still alive and enabled, otherwise fall back to the
freshly provisioned key. -/
def hsPair (revokedRow : Option UserKeyRow) (findByHash : JStr → Option ORKeyInfo)
    (createRes : Option ORCreated) : Option (JStr × JStr) :=
  match revokedRow with
  | some rv =>
    match findByHash rv.or_key_hash with
    | some k => if !k.disabled then some (rv.or_key_hash, rv.or_key_secret) else freshPair createRes
    | none => freshPair createRes
  | none => freshPair createRes

/-- POST /key.  findByHash models findKeyByHash against the upstream API
(none covers both a deleted key and a failed listing); createRes models the
single createKey call the handler can make (none is a provisioning
failure); bytes are the CSPRNG output for the fresh token; now is the
datetime written on reactivation.  Returns the response and the new table.
The first-time branch also calls findKeyByName, but its result feeds an
empty migration-note block, so it does not appear here. -/
def postKey (e : JStr) (db : DB) (findByHash : JStr → Option ORKeyInfo)
    (createRes : Option ORCreated) (bytes : List Nat) (now : Nat) :
    KeyResponse × DB :=
  match findActiveByEmail db e with
  | some _ => (.conflict, db)
  | none =>
    match hsPair (findRevokedByEmail db e) findByHash createRes with
    | none => (.serverError, db)
    | some hs =>
      let tok := generateBayleafToken bytes
      match findRevokedByEmail db e with
      | some _ =>
        (.created tok,
         db.map (fun r =>
           if r.email == e then
             { r with bayleaf_token := tok, or_key_hash := hs.1,
                      or_key_secret := hs.2, revoked := false, created_at := now }
           else r))
      | none =>
        (.created tok, db ++ [⟨e, tok, hs.1, hs.2, false, now⟩])

/-- DELETE /key: 404 without an active row, otherwise mark the row revoked
and leave the upstream key alive. -/
def deleteKey (e : JStr) (db : DB) : KeyResponse × DB :=
  match findActiveByEmail db e with
  | none => (.notFound, db)
  | some _ =>
    (.deleted,
     db.map (fun r => if r.email == e then { r with revoked := true } else r))

/-! ### Proxy routes (src/routes/proxy.ts) -/

/-- One element of the chat-completions messages array. -/
structure Msg where
  role : JStr
  content : JStr
deriving DecidableEq

/-- The parts of a request body the proxy reads or writes; all other JSON
fields are carried through stringify untouched and are not modeled. -/
structure Body where
  messages : Option (List Msg)
  instructions : Option JStr
  user : Option JStr
deriving DecidableEq

/-- Truthiness of an optional string field: present and non-empty. -/
def truthyS : Option JStr → Bool
  | none => false
  | some s => !s.isEmpty

/-- buildSystemPrefix of the source: the configured base prompt, plus the
campus suffix separated by a blank line when in campus mode and the suffix
is configured (non-empty). -/
def buildSystemPfx (env : Env) (isCampusMode : Bool) : JStr :=
  if isCampusMode && !env.CAMPUS_SYSTEM_PFX.isEmpty then
    env.SYSTEM_PROMPT_PFX ++ js "\n\n" ++ env.CAMPUS_SYSTEM_PFX
  else env.SYSTEM_PROMPT_PFX

/-- A placeholder message used only as the default of a list lookup that is
always in range. -/
def noMsg : Msg := ⟨[], []⟩

/-- The chat-completions injection step: find the first system-role message
and prepend the prefix to its content, else unshift a fresh system message. -/
def injectSystemMessages (pre : JStr) (ms : List Msg) : List Msg :=
  match ms.findIdx? (fun m => m.role == js "system") with
  | some i =>
    ms.set i ⟨(ms.getD i noMsg).role, pre ++ js "\n\n" ++ (ms.getD i noMsg).content⟩
  | none => ⟨js "system", pre⟩ :: ms

/-- injectUser: an existing truthy user field wins; else the resolved email
when truthy; else the campus-anonymous marker in campus mode; else leave
the body alone. -/
def injectUser (body : Body) (auth : AuthResult) : Body :=
  if truthyS body.user then body
  else if truthyS auth.userEmail then { body with user := auth.userEmail }
  else if auth.isCampusMode then { body with user := some (js "campus-anonymous") }
  else body

/-- What the proxy does with a request, as far as the claims observe it:
forward a transformed JSON body, forward the original raw request, answer
with a proxy-generated error, or propagate an exception. -/
inductive ProxyResult where
  | forwardJson (body : Body)
  | forwardRaw
  | httpError (status : Nat) (msg : JStr)
  | thrown
deriving DecidableEq

/-- The body transformation performed for POST chat/completions on a parsed
body: system prompt injection when a messages array is present, then user
attribution. -/
def chatTransform (env : Env) (auth : AuthResult) (body : Body) : Body :=
  let body1 :=
    match body.messages with
    | some ms =>
      { body with messages := some (injectSystemMessages (buildSystemPfx env auth.isCampusMode) ms) }
    | none => body
  injectUser body1 auth

/-- POST /responses.  parsed is the outcome of awaiting c.req.json (none
when the body is not valid JSON): the handler then answers 400 itself.
Otherwise it injects the prefix through the instructions field (prepending
when the field is truthy), attributes the user, and forwards the JSON. -/
def responsesHandler (env : Env) (authRes : ResolveResult) (parsed : Option Body) :
    ProxyResult :=
  match authRes with
  | .thrown => .thrown
  | .httpError s m => .httpError s m
  | .decision a =>
    match parsed with
    | none => .httpError 400 (js "Invalid JSON in request body.")
    | some b =>
      let pre := buildSystemPfx env a.isCampusMode
      let newInstructions : JStr :=
        match b.instructions with
        | some i => if !i.isEmpty then pre ++ js "\n\n" ++ i else pre
        | none => pre
      let b1 : Body := { b with instructions := some newInstructions }
      .forwardJson (injectUser b1 a)

/-- The catch-all proxy route.  For POST chat/completions a parse failure
is caught and the request falls through to the raw forwarding path; for a
parsed body the transformed JSON is forwarded; every other path or method
is forwarded raw with only the authorization and host headers adjusted. -/
def chatCatchAll (env : Env) (path method : JStr) (authRes : ResolveResult)
    (parsed : Option Body) : ProxyResult :=
  match authRes with
  | .thrown => .thrown
  | .httpError s m => .httpError s m
  | .decision a =>
    if path == js "/chat/completions" && method == js "POST" then
      match parsed with
      | none => .forwardRaw
      | some b => .forwardJson (chatTransform env a b)
    else .forwardRaw

/-! ### Session tokens (src/utils/session.ts)

The payload codec is JSON.stringify and JSON.parse of the Session object;
both are embedded concretely below.  The HMAC itself is an abstract
parameter (a deterministic function from secret and message to a byte
list), since Web Crypto is an external collaborator; subtle.verify for HMAC
is recompute-and-compare by definition. -/

/-- The double quote character. -/
def dqc : Char := '\x22'

/-- The backslash character. -/
def bsc : Char := '\x5c'

/-- The opening curly brace character. -/
def lbc : Char := '\x7b'

/-- The closing curly brace character. -/
def rbc : Char := '\x7d'

/-- The Session object: email, display name, optional picture URL, expiry
in milliseconds since the epoch (an integer in practice, here a Nat). -/
structure Session where
  email : JStr
  name : JStr
  picture : Option JStr
  exp : Nat
deriving DecidableEq

/-- JSON.stringify escaping of one character inside a string literal. -/
def escChar (c : Char) : JStr :=
  if c = dqc then [bsc, dqc]
  else if c = bsc then [bsc, bsc]
  else if c = '\x08' then [bsc, 'b']
  else if c = '\x09' then [bsc, 't']
  else if c = '\x0a' then [bsc, 'n']
  else if c = '\x0c' then [bsc, 'f']
  else if c = '\x0d' then [bsc, 'r']
  else if c.toNat < 32 then
    [bsc, 'u', '0', '0', hexDigitChar (c.toNat / 16), hexDigitChar (c.toNat % 16)]
  else [c]

/-- JSON.stringify escaping of a whole string. -/
def escChars (s : JStr) : JStr := s.flatMap escChar

/-- A JSON string literal: quote, escaped content, quote. -/
def strLit (s : JStr) : JStr := dqc :: escChars s ++ [dqc]

/-- Decimal rendering of a natural number, as JSON.stringify renders the
integral expiry. -/
def natToChars (n : Nat) : JStr :=
  if n = 0 then ['0'] else ((Nat.digits 10 n).map hexDigitChar).reverse

/-- The JSON values that occur in a serialized session: strings and
natural numbers. -/
inductive JVal where
  | s (v : JStr)
  | n (v : Nat)
deriving DecidableEq

/-- Render one JSON value. -/
def renderVal : JVal → JStr
  | .s v => strLit v
  | .n m => natToChars m

/-- Render one key-value pair of a JSON object. -/
def renderPair (kv : JStr × JVal) : JStr := strLit kv.1 ++ ':' :: renderVal kv.2

/-- Render the comma-separated members of a JSON object. -/
def renderPairs : List (JStr × JVal) → JStr
  | [] => []
  | [kv] => renderPair kv
  | kv :: rest => renderPair kv ++ ',' :: renderPairs rest

/-- The members of the serialized session, in the property order of the
object literal built in the callback route; an undefined picture is
omitted by JSON.stringify. -/
def sessionPairs (s : Session) : List (JStr × JVal) :=
  (js "email", JVal.s s.email) :: (js "name", JVal.s s.name) ::
    (match s.picture with
     | some p => [(js "picture", JVal.s p), (js "exp", JVal.n s.exp)]
     | none => [(js "exp", JVal.n s.exp)])

/-- JSON.stringify of the session object. -/
def stringifySession (s : Session) : JStr :=
  lbc :: renderPairs (sessionPairs s) ++ [rbc]

/-- Hex digit lookup that fails on a non-hex character. -/
def hexValC (c : Char) : Option Nat :=
  if isHexDigitC c then some (hexDigitVal c) else none

/-- Decode a short JSON escape character. -/
def unescShort (e : Char) : Option Char :=
  if e = dqc then some dqc
  else if e = bsc then some bsc
  else if e = '/' then some '/'
  else if e = 'b' then some '\x08'
  else if e = 't' then some '\x09'
  else if e = 'n' then some '\x0a'
  else if e = 'f' then some '\x0c'
  else if e = 'r' then some '\x0d'
  else none

/-- Decode the remainder of one JSON escape sequence (after the backslash),
returning the decoded character and what follows.  A u-escape not followed
by four hex digits, or an unknown escape letter, fails. -/
def unescape1 : JStr → Option (Char × JStr)
  | 'u' :: h1 :: h2 :: h3 :: h4 :: cs2 =>
    (match hexValC h1, hexValC h2, hexValC h3, hexValC h4 with
     | some v1, some v2, some v3, some v4 =>
       some (Char.ofNat (((v1 * 16 + v2) * 16 + v3) * 16 + v4), cs2)
     | _, _, _, _ => none)
  | e :: cs1 => (unescShort e).map (fun u => (u, cs1))
  | [] => none

/-- Parse the body of a JSON string literal after its opening quote,
returning the decoded content and the input after the closing quote; fueled
by the number of remaining parse steps, each of which consumes at least one
character.  Fails (like JSON.parse) on an unterminated literal or a bad
escape. -/
def parseStrBodyF : Nat → JStr → Option (JStr × JStr)
  | 0, _ => none
  | _ + 1, [] => none
  | fuel + 1, c :: cs =>
    if c = dqc then some ([], cs)
    else if c = bsc then
      match unescape1 cs with
      | none => none
      | some u => (parseStrBodyF fuel u.2).map (fun r => (u.1 :: r.1, r.2))
    else (parseStrBodyF fuel cs).map (fun r => (c :: r.1, r.2))

/-- The string-literal parser at its always-sufficient fuel. -/
def parseStrBody (cs : JStr) : Option (JStr × JStr) :=
  parseStrBodyF (cs.length + 1) cs

/-- Parse a run of decimal digits into a number. -/
def parseNatChars (cs : JStr) : Option (Nat × JStr) :=
  let ds := cs.takeWhile Char.isDigit
  if ds.isEmpty then none
  else some (natFromDigits ds, cs.dropWhile Char.isDigit)

/-- Parse one JSON value of the shapes the session serializer emits. -/
def parseVal : JStr → Option (JVal × JStr)
  | [] => none
  | c :: cs =>
    if c = dqc then (parseStrBody cs).map (fun r => (JVal.s r.1, r.2))
    else if c.isDigit then (parseNatChars (c :: cs)).map (fun r => (JVal.n r.1, r.2))
    else none

/-- Parse the members of a JSON object after its opening brace, fueled by
an upper bound on the number of members. -/
def parseFields : Nat → JStr → List (JStr × JVal) →
    Option (List (JStr × JVal) × JStr)
  | 0, _, _ => none
  | fuel + 1, input, acc =>
    match input with
    | c :: cs =>
      if c = dqc then
        match parseStrBody cs with
        | none => none
        | some (k, rest1) =>
          match rest1 with
          | ':' :: rest2 =>
            match parseVal rest2 with
            | none => none
            | some (v, rest3) =>
              match rest3 with
              | ',' :: rest4 => parseFields fuel rest4 (acc ++ [(k, v)])
              | c2 :: rest4 => if c2 = rbc then some (acc ++ [(k, v)], rest4) else none
              | [] => none
          | _ => none
      else none
    | [] => none

/-- Read a string-valued member of a parsed object, first binding wins. -/
def lookupStr (flds : List (JStr × JVal)) (k : JStr) : Option JStr :=
  match flds.find? (fun kv => kv.1 == k) with
  | some (_, .s v) => some v
  | _ => none

/-- Read a number-valued member of a parsed object, first binding wins. -/
def lookupNat (flds : List (JStr × JVal)) (k : JStr) : Option Nat :=
  match flds.find? (fun kv => kv.1 == k) with
  | some (_, .n v) => some v
  | _ => none

/-- JSON.parse of a session payload followed by the Session-typed field
reads, embedded for the flat object shape the serializer emits; payloads of
any other JSON shape are mapped to none. -/
def parseSessionPayload (p : JStr) : Option Session :=
  match p with
  | c :: rest =>
    if c = lbc then
      match parseFields (rest.length + 1) rest [] with
      | some (flds, []) =>
        match lookupStr flds (js "email"), lookupStr flds (js "name"),
              lookupNat flds (js "exp") with
        | some em, some nm, some ex =>
          some ⟨em, nm, lookupStr flds (js "picture"), ex⟩
        | _, _, _ => none
      | _ => none
    else none
  | [] => none

/-! ### Base64 (btoa and atob of the Web platform) -/

/-- The base64 alphabet. -/
def b64Alphabet : JStr :=
  js "ABCDEFGHIJKLMNOPQRSTUVWXYZabcdefghijklmnopqrstuvwxyz0123456789+/"

/-- The base64 digit for a 6-bit value. -/
def b64Char (n : Nat) : Char := b64Alphabet.getD n 'A'

/-- The 6-bit value of a base64 digit, none for a foreign character. -/
def b64Val (c : Char) : Option Nat := b64Alphabet.findIdx? (fun a => a == c)

/-- btoa on a byte list (the binary string), with padding. -/
def btoaBytes : List Nat → JStr
  | [] => []
  | [a] => [b64Char (a / 4), b64Char (a % 4 * 16), '=', '=']
  | [a, b] => [b64Char (a / 4), b64Char (a % 4 * 16 + b / 16), b64Char (b % 16 * 4), '=']
  | a :: b :: c :: rest =>
    b64Char (a / 4) :: b64Char (a % 4 * 16 + b / 16) ::
      b64Char (b % 16 * 4 + c / 64) :: b64Char (c % 64) :: btoaBytes rest

/-- btoa without the padding characters; stripping the padding from
btoaBytes lands exactly here. -/
def btoaCore : List Nat → JStr
  | [] => []
  | [a] => [b64Char (a / 4), b64Char (a % 4 * 16)]
  | [a, b] => [b64Char (a / 4), b64Char (a % 4 * 16 + b / 16), b64Char (b % 16 * 4)]
  | a :: b :: c :: rest =>
    b64Char (a / 4) :: b64Char (a % 4 * 16 + b / 16) ::
      b64Char (b % 16 * 4 + c / 64) :: b64Char (c % 64) :: btoaCore rest

/-- ASCII whitespace in the sense of the forgiving-base64 decode. -/
def asciiWS (c : Char) : Bool :=
  c == ' ' || c == '\t' || c == '\n' || c == '\x0c' || c == '\x0d'

/-- Remove up to two trailing padding characters. -/
def stripPad (d : JStr) : JStr :=
  match d.reverse with
  | c1 :: c2 :: r =>
    if c1 = '=' then (if c2 = '=' then r.reverse else (c2 :: r).reverse) else d
  | [c1] => if c1 = '=' then [] else d
  | [] => d

/-- Decode a padding-free base64 digit string into bytes; a single
leftover digit or a foreign character fails. -/
def decode6 : JStr → Option (List Nat)
  | [] => some []
  | [_] => none
  | [a, b] =>
    match b64Val a, b64Val b with
    | some va, some vb => some [va * 4 + vb / 16]
    | _, _ => none
  | [a, b, c] =>
    match b64Val a, b64Val b, b64Val c with
    | some va, some vb, some vc => some [va * 4 + vb / 16, vb % 16 * 16 + vc / 4]
    | _, _, _ => none
  | a :: b :: c :: d :: rest =>
    match b64Val a, b64Val b, b64Val c, b64Val d with
    | some va, some vb, some vc, some vd =>
      (decode6 rest).map
        (fun bs => (va * 4 + vb / 16) :: (vb % 16 * 16 + vc / 4) :: (vc % 4 * 64 + vd) :: bs)
    | _, _, _, _ => none

/-- The forgiving-base64 cleanup of atob: drop ASCII whitespace, then strip
padding when the length is a multiple of four. -/
def atobClean (cs : JStr) : JStr :=
  if (cs.filter (fun c => !asciiWS c)).length % 4 = 0 then
    stripPad (cs.filter (fun c => !asciiWS c))
  else cs.filter (fun c => !asciiWS c)

/-- atob with the forgiving-base64 cleanup: after the cleanup, reject a
leftover length of one, then decode; none models the thrown
InvalidCharacterError, which the caller catches. -/
def atobChars (cs : JStr) : Option (List Nat) :=
  if (atobClean cs).length % 4 = 1 then none else decode6 (atobClean cs)

/-- createSessionToken: JSON payload, HMAC signature, both base64; the two
parts joined by a dot.  btoa throws on a character above 255, so a payload
outside the Latin-1 range yields none (an uncaught throw in the source). -/
def createSessionToken (mac : JStr → JStr → List Nat) (session : Session)
    (secret : JStr) : Option JStr :=
  let payload := stringifySession session
  if payload.all (fun c => c.toNat ≤ 255) then
    some (btoaBytes (payload.map Char.toNat) ++ '.' :: btoaBytes (mac secret payload))
  else none

/-- verifySessionToken: split on the dot, decode both parts, recompute and
compare the HMAC, parse the payload, reject a past expiry.  Every failure
returns none (the catch-all in the source); the function is total. -/
def verifySessionToken (mac : JStr → JStr → List Nat) (token secret : JStr)
    (now : Nat) : Option Session :=
  match (splitOnChar '.' token).get? 0, (splitOnChar '.' token).get? 1 with
  | some p0, some p1 =>
    if p0.isEmpty || p1.isEmpty then none
    else
      match atobChars p0 with
      | none => none
      | some payloadBytes =>
        match atobChars p1 with
        | none => none
        | some sig =>
          if sig = mac secret (payloadBytes.map Char.ofNat) then
            match parseSessionPayload (payloadBytes.map Char.ofNat) with
            | none => none
            | some s => if s.exp < now then none else some s
          else none
  | _, _ => none

/-! ### Secret-erasure shapes, used to state that responses do not depend
on the upstream secrets -/

/-- A registry row with its upstream secret blanked. -/
def rowShape (r : UserKeyRow) : UserKeyRow := { r with or_key_secret := [] }

/-- The registry with every upstream secret blanked. -/
def dbShape (db : DB) : DB := db.map rowShape

/-- A createKey result with its secret replaced by a fixed placeholder that
preserves only emptiness (the handler checks the secret for truthiness). -/
def createdShape : Option ORCreated → Option ORCreated :=
  Option.map (fun nk => ⟨nk.hash, if nk.key.isEmpty then [] else js "X"⟩)

/-- Decidable equality for Except results, so that concrete runs of the
exception-aware functions can be settled by decide. -/
def exceptDecEqFn {ε α : Type} [DecidableEq ε] [DecidableEq α] :
    (x y : Except ε α) → Decidable (x = y)
  | .error e, .error f =>
    match decEq e f with
    | isTrue h => isTrue (by rw [h])
    | isFalse h => isFalse (fun c => h (Except.error.inj c))
  | .error _, .ok _ => isFalse (fun c => Except.noConfusion c)
  | .ok _, .error _ => isFalse (fun c => Except.noConfusion c)
  | .ok a, .ok b =>
    match decEq a b with
    | isTrue h => isTrue (by rw [h])
    | isFalse h => isFalse (fun c => h (Except.ok.inj c))

instance {ε α : Type} [DecidableEq ε] [DecidableEq α] : DecidableEq (Except ε α) :=
  exceptDecEqFn

/-! ## Helper lemmas -/

theorem splitOnChar_of_not_mem {sep : Char} : ∀ {cs : JStr}, sep ∉ cs →
    splitOnChar sep cs = [cs]
  | [], _ => rfl
  | c :: cs, h => by
    have hc : ¬(c = sep) := fun e => h (e ▸ List.mem_cons_self c cs)
    have hcs : sep ∉ cs := fun m => h (List.mem_cons_of_mem _ m)
    simp [splitOnChar, hc, splitOnChar_of_not_mem hcs]

theorem splitOnChar_append {sep : Char} {B : JStr} : ∀ {A : JStr}, sep ∉ A →
    splitOnChar sep (A ++ sep :: B) = A :: splitOnChar sep B
  | [], _ => by simp [splitOnChar]
  | a :: A, h => by
    have ha : ¬(a = sep) := fun e => h (e ▸ List.mem_cons_self a A)
    have hA : sep ∉ A := fun m => h (List.mem_cons_of_mem _ m)
    simp [splitOnChar, ha, splitOnChar_append hA]

theorem dropWhile_all_false {p : Char → Bool} {l : JStr}
    (h : ∀ c ∈ l, p c = false) : l.dropWhile p = l := by
  cases l with
  | nil => rfl
  | cons c cs => simp [List.dropWhile_cons, h c (List.mem_cons_self c cs)]

theorem trimChars_of_no_ws {l : JStr} (h : ∀ c ∈ l, jsWhitespace c = false) :
    trimChars l = l := by
  unfold trimChars
  rw [dropWhile_all_false h,
      dropWhile_all_false (fun c hc => h c (List.mem_reverse.mp hc)),
      List.reverse_reverse]

theorem hexDigitChar_not_ws (n : Nat) : jsWhitespace (hexDigitChar n) = false := by
  rcases lt_or_ge n 16 with h | h
  · unfold hexDigitChar
    interval_cases n <;> decide
  · unfold hexDigitChar
    rw [List.getD_eq_default]
    · decide
    · have hlen : (js "0123456789abcdef").length = 16 := by decide
      omega

theorem generateBayleafToken_no_ws (bytes : List Nat) :
    ∀ c ∈ generateBayleafToken bytes, jsWhitespace c = false := by
  intro c hc
  unfold generateBayleafToken at hc
  rcases List.mem_append.mp hc with h | h
  · exact (by decide : ∀ x ∈ BAYLEAF_TOKEN_PFX, jsWhitespace x = false) c h
  · rcases List.mem_flatMap.mp h with ⟨b, _, hb⟩
    simp [byteHex] at hb
    rcases hb with rfl | rfl
    · exact hexDigitChar_not_ws _
    · exact hexDigitChar_not_ws _

theorem stripBearer_bearer_sp (t : JStr) :
    stripBearer (js "Bearer " ++ t) = t.dropWhile jsWhitespace := by
  rw [show js "Bearer " = ['B', 'e', 'a', 'r', 'e', 'r', ' '] from by decide]
  rw [show (['B', 'e', 'a', 'r', 'e', 'r', ' '] : JStr) ++ t =
        'B' :: 'e' :: 'a' :: 'r' :: 'e' :: 'r' :: ' ' :: t from rfl]
  unfold stripBearer
  rw [show List.take 6 ('B' :: 'e' :: 'a' :: 'r' :: 'e' :: 'r' :: ' ' :: t) =
        ['B', 'e', 'a', 'r', 'e', 'r'] from rfl,
      show List.drop 6 ('B' :: 'e' :: 'a' :: 'r' :: 'e' :: 'r' :: ' ' :: t) =
        ' ' :: t from rfl]
  show List.dropWhile jsWhitespace (' ' :: t) = List.dropWhile jsWhitespace t
  simp [List.dropWhile_cons, jsWhitespace]

theorem candidateKey_bearer_of_no_ws {t : JStr}
    (h : ∀ c ∈ t, jsWhitespace c = false) :
    candidateKey (js "Bearer " ++ t) = t := by
  unfold candidateKey
  rw [stripBearer_bearer_sp, dropWhile_all_false h, trimChars_of_no_ws h]

theorem lowerChars_pfx_ne_campus (t : JStr) :
    (lowerChars (BAYLEAF_TOKEN_PFX ++ t) == js "campus") = false := by
  rw [beq_eq_false_iff_ne]
  intro hEq
  rw [show BAYLEAF_TOKEN_PFX =
        's' :: 'k' :: '-' :: 'b' :: 'a' :: 'y' :: 'l' :: 'e' :: 'a' :: 'f' :: '-' :: []
      from by decide] at hEq
  rw [show js "campus" = 'c' :: 'a' :: 'm' :: 'p' :: 'u' :: 's' :: [] from by decide] at hEq
  simp [lowerChars] at hEq

theorem pfx_append_not_empty (t : JStr) :
    (BAYLEAF_TOKEN_PFX ++ t).isEmpty = false := by
  rw [List.isEmpty_eq_false]
  exact List.append_ne_nil_of_left_ne_nil (by decide) t

/-- The reduction of resolveAuth on a candidate that carries the bayleaf
token marker: the campus branch is skipped and the registry decides. -/
theorem resolveAuth_token_reduction (h : JStr) (req : ReqIP) (env : Env) (db : DB)
    (hpre : BAYLEAF_TOKEN_PFX.isPrefixOf (candidateKey h) = true) :
    resolveAuth (some h) req env db =
      (match findActiveByToken db (candidateKey h) with
       | none => .httpError 401 invalidKeyMsg
       | some row => .decision ⟨js "Bearer " ++ row.or_key_secret, false, some row.email⟩) := by
  obtain ⟨t, hk⟩ := List.isPrefixOf_iff_prefix.mp hpre
  have hne : (candidateKey h).isEmpty = false := by
    rw [← hk]; exact pfx_append_not_empty t
  have hnc : (lowerChars (candidateKey h) == js "campus") = false := by
    rw [← hk]; exact lowerChars_pfx_ne_campus t
  simp [resolveAuth, hne, hnc, hpre]

/-! ## Claim C1 -/

/-- C1, counterexample to the claim as stated: with an IPv6 campus range
configured and a malformed IPv6 client address (a double colon plus nine
other groups), a request with no Authorization header takes the campus
branch but the eligibility check throws, so auth resolution ends in the
propagated exception (a 500 from the global handler), not in the terminal
401 the claim promises for the non-eligible case. -/
theorem claim_C1_counterexample :
    resolveAuth none ⟨some (js "1:2:3:4:5:6:7:8::9"), none⟩
      ⟨js "2607:f5f0::/32", js "pool-key", js "P", []⟩ [] = .thrown := by
  decide

/-- C1 as amended: a request whose candidate is absent, empty, or the
campus keyword in any letter case always resolves through the campus
branch (so it never reaches the proxy-token or passthrough branch); that
branch yields the shared pool decision when eligibility returns true, the
terminal 401 when it returns false, and the propagated exception when the
eligibility check throws on a malformed IPv6 client address. -/
theorem claim_C1 (authHeader : Option JStr) (req : ReqIP) (env : Env) (db : DB)
    (hc : authHeader = none ∨ ∃ h, authHeader = some h ∧
        ((candidateKey h).isEmpty = true ∨ lowerChars (candidateKey h) = js "campus")) :
    resolveAuth authHeader req env db = campusBranch req env ∧
    (isCampusPassEligible req env = .ok true →
      resolveAuth authHeader req env db =
        .decision ⟨js "Bearer " ++ env.CAMPUS_POOL_KEY, true, none⟩) ∧
    (isCampusPassEligible req env = .ok false →
      resolveAuth authHeader req env db = .httpError 401 authRequiredMsg) ∧
    (isCampusPassEligible req env = .error () →
      resolveAuth authHeader req env db = .thrown) := by
  have hcb : resolveAuth authHeader req env db = campusBranch req env := by
    rcases hc with rfl | ⟨h, rfl, hcond⟩
    · rfl
    · have hor : ((candidateKey h).isEmpty || (lowerChars (candidateKey h) == js "campus")) = true := by
        rcases hcond with h1 | h1 <;> simp [h1]
      simp [resolveAuth, hor]
  refine ⟨hcb, ?_, ?_, ?_⟩ <;> intro he <;> rw [hcb] <;> unfold campusBranch <;> rw [he]

/-- C1 witness: the literal keyword campus in uppercase, sent from an
on-campus IPv4 address, yields the pool decision. -/
theorem claim_C1_witness :
    (some (js "Bearer CAMPUS") = none ∨ ∃ h, some (js "Bearer CAMPUS") = some h ∧
        ((candidateKey h).isEmpty = true ∨ lowerChars (candidateKey h) = js "campus")) ∧
    resolveAuth (some (js "Bearer CAMPUS")) ⟨some (js "128.114.3.4"), none⟩
        ⟨js "128.114.0.0/16", js "pool-key", js "P", []⟩ [] =
      .decision ⟨js "Bearer " ++ js "pool-key", true, none⟩ :=
  have hc : (some (js "Bearer CAMPUS") = none ∨ ∃ h, some (js "Bearer CAMPUS") = some h ∧
      ((candidateKey h).isEmpty = true ∨ lowerChars (candidateKey h) = js "campus")) :=
    Or.inr ⟨js "Bearer CAMPUS", rfl, Or.inr (by decide)⟩
  ⟨hc, (claim_C1 _ ⟨some (js "128.114.3.4"), none⟩
      ⟨js "128.114.0.0/16", js "pool-key", js "P", []⟩ [] hc).2.1 (by decide)⟩

/-! ## Claim C4 -/

/-- C4: a candidate carrying the bayleaf token marker resolves through the
registry: a missing or revoked record yields the terminal 401 with the
invalid-or-revoked message, and an active record yields the decision with
Bearer of the stored upstream secret, campus mode off, and the records
email as identity. -/
theorem claim_C4 (h : JStr) (req : ReqIP) (env : Env) (db : DB)
    (hpre : BAYLEAF_TOKEN_PFX.isPrefixOf (candidateKey h) = true) :
    (findActiveByToken db (candidateKey h) = none →
       resolveAuth (some h) req env db = .httpError 401 invalidKeyMsg) ∧
    (∀ row, findActiveByToken db (candidateKey h) = some row →
       resolveAuth (some h) req env db =
         .decision ⟨js "Bearer " ++ row.or_key_secret, false, some row.email⟩) := by
  have hred := resolveAuth_token_reduction h req env db hpre
  constructor
  · intro hn; rw [hred, hn]
  · intro row hr; rw [hred, hr]

/-- C4 witness: an unknown bayleaf token against an empty registry gets the
invalid-or-revoked 401. -/
theorem claim_C4_witness :
    BAYLEAF_TOKEN_PFX.isPrefixOf (candidateKey (js "Bearer sk-bayleaf-ab")) = true ∧
    resolveAuth (some (js "Bearer sk-bayleaf-ab")) ⟨none, none⟩ ⟨[], [], js "P", []⟩ [] =
      .httpError 401 invalidKeyMsg :=
  ⟨by decide,
   (claim_C4 (js "Bearer sk-bayleaf-ab") ⟨none, none⟩ ⟨[], [], js "P", []⟩ [] (by decide)).1
     (by decide)⟩

/-! ## Claim C2 -/

/-- C2, counterexample to the claim as stated: a POST to the responses
endpoint with a passthrough credential and a body that fails JSON parsing
receives a proxy-generated 400, not a forwarded request. -/
theorem claim_C2_counterexample :
    responsesHandler ⟨[], [], js "P", []⟩
      (resolveAuth (some (js "Bearer sk-or-abc")) ⟨none, none⟩ ⟨[], [], js "P", []⟩ [])
      none = .httpError 400 (js "Invalid JSON in request body.") := by
  decide

/-- C2 as amended: on POST chat/completions a body that cannot be parsed is
forwarded raw and unmodified (the parse failure is caught and degrades to
passthrough), while on POST responses a malformed body is answered by the
proxy itself with a 400 error. -/
theorem claim_C2 (env : Env) (a : AuthResult) :
    chatCatchAll env (js "/chat/completions") (js "POST") (.decision a) none = .forwardRaw ∧
    responsesHandler env (.decision a) none =
      .httpError 400 (js "Invalid JSON in request body.") := by
  constructor
  · simp [chatCatchAll]
  · rfl

/-! ## Claim C7 -/

/-- C7: on a chat-completions body with a messages array, the transformation
with the computed prefix rewrites the content of the system message at the
found index to prefix, blank line, original content; without a system
message it inserts a fresh system message with the prefix at index zero. -/
theorem claim_C7 (env : Env) (a : AuthResult) (b : Body) (ms : List Msg)
    (hms : b.messages = some ms) :
    (∀ i, ms.findIdx? (fun m => m.role == js "system") = some i →
        (chatTransform env a b).messages =
          some (ms.set i ⟨(ms.getD i noMsg).role,
            buildSystemPfx env a.isCampusMode ++ js "\n\n" ++ (ms.getD i noMsg).content⟩)) ∧
    (ms.findIdx? (fun m => m.role == js "system") = none →
        (chatTransform env a b).messages =
          some (⟨js "system", buildSystemPfx env a.isCampusMode⟩ :: ms)) := by
  have hmsg : ∀ b', (injectUser b' a).messages = b'.messages := by
    intro b'; unfold injectUser; split_ifs <;> rfl
  constructor
  · intro i hi
    simp [chatTransform, hms, hmsg, injectSystemMessages, hi]
  · intro hn
    simp [chatTransform, hms, hmsg, injectSystemMessages, hn]

/-- C7 witness: the spec example, a single user message with prefix P gets
a fresh system message in front. -/
theorem claim_C7_witness :
    Body.messages ⟨some [⟨js "user", js "hi"⟩], none, none⟩ = some [⟨js "user", js "hi"⟩] ∧
    (chatTransform ⟨[], [], js "P", []⟩ ⟨js "B", false, none⟩
        ⟨some [⟨js "user", js "hi"⟩], none, none⟩).messages =
      some (⟨js "system", buildSystemPfx ⟨[], [], js "P", []⟩ false⟩ :: [⟨js "user", js "hi"⟩]) :=
  ⟨rfl,
   (claim_C7 ⟨[], [], js "P", []⟩ ⟨js "B", false, none⟩
       ⟨some [⟨js "user", js "hi"⟩], none, none⟩ [⟨js "user", js "hi"⟩] rfl).2 (by decide)⟩

/-! ## Claim C9 -/

/-- The first-match characterization of findIdx? with its running start
index, by induction on the list. -/
theorem findIdx?_go_spec {α : Type} (p : α → Bool) :
    ∀ (l : List α) (s i : Nat), l.findIdx? p s = some i →
      s ≤ i ∧ i - s < l.length ∧ (∀ d, p (l.getD (i - s) d) = true) ∧
      (∀ j, j < i - s → ∀ d, p (l.getD j d) = false)
  | [], s, i, h => by simp [List.findIdx?] at h
  | a :: l, s, i, h => by
    rw [List.findIdx?_cons] at h
    by_cases hp : p a = true
    · rw [if_pos hp] at h
      injection h with h
      subst h
      refine ⟨le_refl s, by simp, ?_, ?_⟩
      · intro d; simpa using hp
      · intro j hj d; simp at hj
    · rw [if_neg hp] at h
      obtain ⟨h1, h2, h3, h4⟩ := findIdx?_go_spec p l (s + 1) i h
      refine ⟨by omega, by simp; omega, ?_, ?_⟩
      · intro d
        have hix : i - s = (i - (s + 1)) + 1 := by omega
        rw [hix, List.getD_cons_succ]
        exact h3 d
      · intro j hj d
        cases j with
        | zero => simpa using hp
        | succ j' =>
          rw [List.getD_cons_succ]
          exact h4 j' (by omega) d

/-- C9: when a system message exists, only the first one (lowest index) is
rewritten: the length is preserved, the found index is the first index with
the system role, its content gets the prefix, and every other position is
unchanged. -/
theorem claim_C9 (pre : JStr) (ms : List Msg) (i : Nat)
    (h : ms.findIdx? (fun m => m.role == js "system") = some i) :
    (injectSystemMessages pre ms).length = ms.length ∧
    i < ms.length ∧
    (ms.getD i noMsg).role = js "system" ∧
    (∀ j, j < i → (ms.getD j noMsg).role ≠ js "system") ∧
    (injectSystemMessages pre ms).getD i noMsg =
      ⟨(ms.getD i noMsg).role, pre ++ js "\n\n" ++ (ms.getD i noMsg).content⟩ ∧
    (∀ j, j ≠ i → (injectSystemMessages pre ms).getD j noMsg = ms.getD j noMsg) := by
  obtain ⟨-, h2, h3, h4⟩ := findIdx?_go_spec _ ms 0 i h
  rw [Nat.sub_zero] at h2 h3
  have hrole : (ms.getD i noMsg).role = js "system" := by
    have := h3 noMsg
    simpa [beq_iff_eq] using this
  have hinj : injectSystemMessages pre ms =
      ms.set i ⟨(ms.getD i noMsg).role, pre ++ js "\n\n" ++ (ms.getD i noMsg).content⟩ := by
    unfold injectSystemMessages
    rw [h]
  refine ⟨by rw [hinj, List.length_set], h2, hrole, ?_, ?_, ?_⟩
  · intro j hj
    have := h4 j (by omega) noMsg
    simpa [beq_eq_false_iff_ne] using this
  · rw [hinj, List.getD_eq_getElem?_getD, List.getElem?_set_self h2]
    simp
  · intro j hj
    rw [hinj, List.getD_eq_getElem?_getD, List.getElem?_set_ne (Ne.symm hj),
        ← List.getD_eq_getElem?_getD]

/-- C9 witness: two system messages, only the first is rewritten. -/
theorem claim_C9_witness :
    ([⟨js "system", js "S1"⟩, ⟨js "system", js "S2"⟩] : List Msg).findIdx?
      (fun m => m.role == js "system") = some 0 ∧
    (∀ j, j ≠ 0 →
      (injectSystemMessages (js "P") [⟨js "system", js "S1"⟩, ⟨js "system", js "S2"⟩]).getD j noMsg =
        ([⟨js "system", js "S1"⟩, ⟨js "system", js "S2"⟩] : List Msg).getD j noMsg) :=
  ⟨by decide,
   (claim_C9 (js "P") [⟨js "system", js "S1"⟩, ⟨js "system", js "S2"⟩] 0 (by decide)).2.2.2.2.2⟩

/-! ## Claim C10 -/

/-- C10, counterexample to the claim as stated: with a passthrough
credential (no resolved email, campus mode off), a user field equal to the
empty string is preserved unchanged, although the claim allows only
non-empty values to be preserved. -/
theorem claim_C10_counterexample :
    injectUser ⟨none, none, some []⟩ ⟨js "sk-or-abc", false, none⟩ = ⟨none, none, some []⟩ ∧
    truthyS (some ([] : JStr)) = false := by
  exact ⟨rfl, rfl⟩

/-- C10 as amended: the attribution step treats an empty user like an
absent one; it overwrites with the resolved email when that is non-empty,
else with the campus marker in campus mode, and otherwise leaves the field
(empty or absent) unchanged; a truthy existing value is always kept. -/
theorem claim_C10 (b : Body) (a : AuthResult) :
    (truthyS b.user = true → injectUser b a = b) ∧
    (truthyS b.user = false → truthyS a.userEmail = true →
       injectUser b a = { b with user := a.userEmail }) ∧
    (truthyS b.user = false → truthyS a.userEmail = false → a.isCampusMode = true →
       injectUser b a = { b with user := some (js "campus-anonymous") }) ∧
    (truthyS b.user = false → truthyS a.userEmail = false → a.isCampusMode = false →
       injectUser b a = b) := by
  refine ⟨?_, ?_, ?_, ?_⟩ <;> intros <;> simp [injectUser, *]

/-- C10 witness: an empty user field is overwritten by the resolved email. -/
theorem claim_C10_witness :
    truthyS (Body.user ⟨none, none, some []⟩) = false ∧
    truthyS (AuthResult.userEmail ⟨js "B", false, some (js "u@ucsc.edu")⟩) = true ∧
    injectUser ⟨none, none, some []⟩ ⟨js "B", false, some (js "u@ucsc.edu")⟩ =
      { (⟨none, none, some []⟩ : Body) with user := some (js "u@ucsc.edu") } :=
  ⟨by decide, by decide,
   (claim_C10 ⟨none, none, some []⟩ ⟨js "B", false, some (js "u@ucsc.edu")⟩).2.1
     (by decide) (by decide)⟩

/-! ## Claim C8 -/

/-- C8: the code contradicts the no-error contract of the claim.  A
malformed IPv6 address (a double colon plus nine other groups) makes the
converter compute a negative fill count and throw, aborting the whole
check; a malformed range of the same shape placed first in the comma list
aborts the check even though the following range matches the address. -/
theorem claim_C8_bug :
    isIPInCIDR (js "1:2:3:4:5:6:7:8::9") (js "2607:f5f0::/32") = .error () ∧
    isOnCampus (js "1:2:3:4:5:6:7:8::9") (js "2607:f5f0::/32,128.114.0.0/16") = .error () ∧
    isIPInCIDR (js "2607:f5f0::1") (js "2607:f5f0::/32") = .ok true ∧
    isOnCampus (js "2607:f5f0::1") (js "1:2:3:4:5:6:7:8::9/64,2607:f5f0::/32") = .error () := by
  refine ⟨by decide, by decide, by decide, by decide⟩

/-! ## Claim C3 -/

theorem find?_map_of_pred {α : Type} (g : α → α) (p q : α → Bool) (l : List α)
    (h : ∀ r, q (g r) = p r) : (l.map g).find? q = (l.find? p).map g := by
  rw [List.find?_map]
  have hpq : q ∘ g = p := funext h
  rw [hpq]

theorem findActive_dbShape (db : DB) (e : JStr) :
    findActiveByEmail (dbShape db) e = (findActiveByEmail db e).map rowShape :=
  find?_map_of_pred rowShape _ _ db (fun _ => rfl)

theorem findRevoked_dbShape (db : DB) (e : JStr) :
    findRevokedByEmail (dbShape db) e = (findRevokedByEmail db e).map rowShape :=
  find?_map_of_pred rowShape _ _ db (fun _ => rfl)

theorem generateBayleafToken_isPfx (bytes : List Nat) :
    BAYLEAF_TOKEN_PFX.isPrefixOf (generateBayleafToken bytes) = true :=
  List.isPrefixOf_iff_prefix.mpr ⟨bytes.flatMap byteHex, rfl⟩

theorem flatMap_byteHex_length (bytes : List Nat) :
    (bytes.flatMap byteHex).length = 2 * bytes.length := by
  induction bytes with
  | nil => rfl
  | cons b bs ih =>
    rw [List.flatMap_cons, List.length_append, ih]
    simp [byteHex]
    ring

theorem generateBayleafToken_length {bytes : List Nat} (h : bytes.length = 16) :
    (generateBayleafToken bytes).length = 43 := by
  unfold generateBayleafToken
  rw [List.length_append, flatMap_byteHex_length, h]
  have hp : BAYLEAF_TOKEN_PFX.length = 11 := by decide
  omega

theorem freshPair_shape (c : Option ORCreated) :
    freshPair (createdShape c) = (freshPair c).map (fun hs => (hs.1, js "X")) := by
  cases c with
  | none => rfl
  | some nk =>
    cases hk : nk.key.isEmpty with
    | true =>
      have h1 : createdShape (some nk) = some ⟨nk.hash, []⟩ := by
        simp only [createdShape, Option.map]
        rw [if_pos hk]
      have h3 : freshPair (some nk) = none := by
        simp only [freshPair]
        rw [if_pos hk]
      rw [h1, h3]
      rfl
    | false =>
      have hkf : ¬nk.key.isEmpty = true := by rw [hk]; exact Bool.false_ne_true
      have h1 : createdShape (some nk) = some ⟨nk.hash, js "X"⟩ := by
        simp only [createdShape, Option.map]
        rw [if_neg hkf]
      have h2 : freshPair (some ⟨nk.hash, js "X"⟩) = some (nk.hash, js "X") := by
        simp only [freshPair]
        rw [if_neg (by decide : ¬(js "X").isEmpty = true)]
      have h3 : freshPair (some nk) = some (nk.hash, nk.key) := by
        simp only [freshPair]
        rw [if_neg hkf]
      rw [h1, h2, h3]
      rfl

theorem hsPair_shape (rv? : Option UserKeyRow) (f : JStr → Option ORKeyInfo)
    (c : Option ORCreated) :
    (hsPair (rv?.map rowShape) f (createdShape c)).isSome = (hsPair rv? f c).isSome := by
  cases rv? with
  | none =>
    show (freshPair (createdShape c)).isSome = (freshPair c).isSome
    rw [freshPair_shape]
    simp
  | some rv =>
    show (match f rv.or_key_hash with
          | some k => if !k.disabled then some (rv.or_key_hash, (rowShape rv).or_key_secret)
                      else freshPair (createdShape c)
          | none => freshPair (createdShape c)).isSome =
         (match f rv.or_key_hash with
          | some k => if !k.disabled then some (rv.or_key_hash, rv.or_key_secret)
                      else freshPair c
          | none => freshPair c).isSome
    cases hF : f rv.or_key_hash with
    | none =>
      rw [freshPair_shape]
      simp
    | some k =>
      cases hd : k.disabled
      · simp [hd]
      · simp [hd, freshPair_shape]

/-- The response of POST /key is unchanged when every upstream secret in
the registry is blanked and the provisioned secret is replaced by a
placeholder that only preserves emptiness: the response never carries
secret material. -/
theorem postKey_resp_indep (e : JStr) (db : DB) (f : JStr → Option ORKeyInfo)
    (c : Option ORCreated) (bytes : List Nat) (now : Nat) :
    (postKey e db f c bytes now).1 =
      (postKey e (dbShape db) f (createdShape c) bytes now).1 := by
  unfold postKey
  rw [findActive_dbShape, findRevoked_dbShape]
  cases hA : findActiveByEmail db e with
  | some r => rfl
  | none =>
    have hs := hsPair_shape (findRevokedByEmail db e) f c
    cases hH : hsPair (findRevokedByEmail db e) f c with
    | none =>
      cases hS : hsPair ((findRevokedByEmail db e).map rowShape) f (createdShape c) with
      | some v => simp [hH, hS] at hs
      | none => rfl
    | some hsv =>
      cases hS : hsPair ((findRevokedByEmail db e).map rowShape) f (createdShape c) with
      | none => simp [hH, hS] at hs
      | some hsv' => cases findRevokedByEmail db e <;> rfl

/-- A successful POST /key returns exactly the freshly generated bayleaf
token. -/
theorem postKey_created_tok (e : JStr) (db : DB) (f : JStr → Option ORKeyInfo)
    (c : Option ORCreated) (bytes : List Nat) (now : Nat) (k : JStr)
    (h : (postKey e db f c bytes now).1 = .created k) :
    k = generateBayleafToken bytes := by
  unfold postKey at h
  cases hA : findActiveByEmail db e with
  | some r => rw [hA] at h; exact absurd h (by simp)
  | none =>
    rw [hA] at h
    cases hH : hsPair (findRevokedByEmail db e) f c with
    | none => rw [hH] at h; exact absurd h (by simp)
    | some hsv =>
      rw [hH] at h
      cases hR : findRevokedByEmail db e with
      | some rv => rw [hR] at h; simp at h; exact h.symm
      | none => rw [hR] at h; simp at h; exact h.symm

theorem findActive_update_generic (db : DB) (e tok : JStr) (g : UserKeyRow → UserKeyRow)
    (hgE : ∀ r, (g r).email = r.email)
    (hgT : ∀ r, (r.email == e) = true → (g r).revoked = false ∧ (g r).bayleaf_token = tok)
    (hex : ∃ r ∈ db, (r.email == e) = true) :
    ∃ row, findActiveByEmail (db.map g) e = some row ∧
      row.bayleaf_token = tok ∧ row.email = e := by
  have hpred : ∀ r, (((g r).email == e) && !(g r).revoked) = (r.email == e) := by
    intro r
    cases hr : (r.email == e) with
    | true => rw [hgE r, hr, (hgT r hr).1]; rfl
    | false => rw [hgE r, hr]; rfl
  have hmap := find?_map_of_pred g (fun r => r.email == e)
    (fun r => (r.email == e) && !r.revoked) db hpred
  obtain ⟨r0, hmem, hr0⟩ := hex
  have hsome : (db.find? (fun r => r.email == e)).isSome = true :=
    List.find?_isSome.mpr ⟨r0, hmem, hr0⟩
  obtain ⟨r1, hr1⟩ := Option.isSome_iff_exists.mp hsome
  have hp1 : (r1.email == e) = true := List.find?_some (p := fun r : UserKeyRow => r.email == e) hr1
  refine ⟨g r1, ?_, (hgT r1 hp1).2, ?_⟩
  · show findActiveByEmail (db.map g) e = some (g r1)
    have : findActiveByEmail (db.map g) e =
        (db.find? (fun r => r.email == e)).map g := hmap
    rw [this, hr1]
    rfl
  · rw [hgE r1]
    exact eq_of_beq hp1

/-- A successful POST /key leaves an active registry row for the email
whose stored token is exactly the returned one, in both the reactivation
and the first-time-insert path. -/
theorem postKey_created_row (e : JStr) (db : DB) (f : JStr → Option ORKeyInfo)
    (c : Option ORCreated) (bytes : List Nat) (now : Nat)
    (h : (postKey e db f c bytes now).1 = .created (generateBayleafToken bytes)) :
    ∃ row, findActiveByEmail (postKey e db f c bytes now).2 e = some row ∧
      row.bayleaf_token = generateBayleafToken bytes ∧ row.email = e := by
  unfold postKey at h ⊢
  cases hA : findActiveByEmail db e with
  | some r =>
    rw [hA] at h
    exact absurd h (by simp)
  | none =>
    rw [hA] at h
    cases hH : hsPair (findRevokedByEmail db e) f c with
    | none =>
      rw [hH] at h
      exact absurd h (by simp)
    | some hsv =>
      cases hR : findRevokedByEmail db e with
      | none =>
        refine ⟨⟨e, generateBayleafToken bytes, hsv.1, hsv.2, false, now⟩, ?_, rfl, rfl⟩
        show List.find? _ (db ++ _) = _
        rw [List.find?_append]
        have hA' : db.find? (fun r => (r.email == e) && !r.revoked) = none := hA
        rw [hA']
        simp [List.find?]
      | some rv =>
        have hpv := List.find?_some (p := fun r : UserKeyRow => (r.email == e) && r.revoked) (l := db) hR
        have hmem : rv ∈ db := List.mem_of_find?_eq_some hR
        exact findActive_update_generic db e (generateBayleafToken bytes) _
          (by intro r; by_cases hr : (r.email == e) = true <;> simp [hr])
          (by intro r hr; constructor <;> simp [hr])
          ⟨rv, hmem, ((Bool.and_eq_true _ _).mp hpv).1⟩

/-- C3: a successful POST /key answers with the freshly generated opaque
proxy token (the bayleaf marker plus 32 hex characters for 16 random
bytes) and with nothing derived from any upstream secret: the response is
unchanged when every secret in the registry and the provisioned secret are
replaced by placeholders, and the secret-bearing row lands only in the
registry state, through the update in the reactivation path or the insert
in the first-time path, keyed by the callers email and carrying the
returned token. -/
theorem claim_C3 (e : JStr) (db : DB) (f : JStr → Option ORKeyInfo)
    (c : Option ORCreated) (bytes : List Nat) (now : Nat) :
    (postKey e db f c bytes now).1 =
      (postKey e (dbShape db) f (createdShape c) bytes now).1 ∧
    (∀ k, (postKey e db f c bytes now).1 = .created k →
       k = generateBayleafToken bytes ∧
       BAYLEAF_TOKEN_PFX.isPrefixOf k = true ∧
       (bytes.length = 16 → k.length = 43) ∧
       ∃ row, findActiveByEmail (postKey e db f c bytes now).2 e = some row ∧
         row.bayleaf_token = k ∧ row.email = e) := by
  refine ⟨postKey_resp_indep e db f c bytes now, ?_⟩
  intro k hk
  have hk' := postKey_created_tok e db f c bytes now k hk
  subst hk'
  exact ⟨rfl, generateBayleafToken_isPfx bytes,
    fun hb => generateBayleafToken_length hb,
    postKey_created_row e db f c bytes now hk⟩

/-- C3 witness: a first-time create against an empty registry returns the
generated token, of the right shape. -/
theorem claim_C3_witness :
    ((postKey (js "u@ucsc.edu") [] (fun _ => none) (some ⟨js "h1", js "sk-or-sec"⟩)
        (List.replicate 16 0) 0).1 =
      KeyResponse.created (generateBayleafToken (List.replicate 16 0))) ∧
    BAYLEAF_TOKEN_PFX.isPrefixOf (generateBayleafToken (List.replicate 16 0)) = true ∧
    ((List.replicate 16 (0 : Nat)).length = 16 →
      (generateBayleafToken (List.replicate 16 0)).length = 43) :=
  have happ := (claim_C3 (js "u@ucsc.edu") [] (fun _ => none)
      (some ⟨js "h1", js "sk-or-sec"⟩) (List.replicate 16 0) 0).2
      (generateBayleafToken (List.replicate 16 0)) (by decide)
  ⟨by decide, happ.2.1, happ.2.2.1⟩

/-! ## Claim C5 -/

/-- C5: for a user with an active row whose token was issued by the
generator, revoking succeeds, and from that point the original token no
longer resolves: the registry lookup is empty and auth resolution answers
the invalid-or-revoked 401.  A subsequent successful create issues the
freshly generated token, which under the freshness of the CSPRNG draw
differs from the original, and the original token still resolves to the
same 401 against the post-create registry, even though the same row was
reused.  Token uniqueness (the UNIQUE column constraint) is carried as the
hypothesis that only this users rows can hold the old token. -/
theorem claim_C5 (e t₀ : JStr) (db : DB) (r₀ : UserKeyRow)
    (oldBytes bytes : List Nat) (req : ReqIP) (env : Env)
    (hr : findActiveByEmail db e = some r₀)
    (ht0 : t₀ = generateBayleafToken oldBytes)
    (huniq : ∀ r ∈ db, r.bayleaf_token = t₀ → r.email = e)
    (hfresh : generateBayleafToken bytes ≠ t₀) :
    (deleteKey e db).1 = .deleted ∧
    findActiveByToken (deleteKey e db).2 t₀ = none ∧
    resolveAuth (some (js "Bearer " ++ t₀)) req env (deleteKey e db).2 =
      .httpError 401 invalidKeyMsg ∧
    (∀ f c now k,
      (postKey e (deleteKey e db).2 f c bytes now).1 = .created k →
      k ≠ t₀ ∧
      findActiveByToken (postKey e (deleteKey e db).2 f c bytes now).2 t₀ = none ∧
      resolveAuth (some (js "Bearer " ++ t₀)) req env
          (postKey e (deleteKey e db).2 f c bytes now).2 =
        .httpError 401 invalidKeyMsg) := by
  have hdel : deleteKey e db =
      (.deleted, db.map (fun r => if r.email == e then { r with revoked := true } else r)) := by
    unfold deleteKey
    rw [hr]
  have hB : findActiveByToken
      (db.map (fun r => if r.email == e then { r with revoked := true } else r)) t₀ = none := by
    apply List.find?_eq_none.mpr
    intro x hx
    rw [List.mem_map] at hx
    obtain ⟨r, hrmem, rfl⟩ := hx
    by_cases hre : (r.email == e) = true
    · rw [if_pos hre]
      simp
    · rw [if_neg hre]
      intro hcontra
      have h1 := ((Bool.and_eq_true _ _).mp hcontra).1
      have h2 : r.bayleaf_token = t₀ := eq_of_beq h1
      have h3 := huniq r hrmem h2
      rw [h3] at hre
      simp at hre
  have hcand : candidateKey (js "Bearer " ++ t₀) = t₀ := by
    rw [ht0]
    exact candidateKey_bearer_of_no_ws (generateBayleafToken_no_ws oldBytes)
  have hpfx : BAYLEAF_TOKEN_PFX.isPrefixOf (candidateKey (js "Bearer " ++ t₀)) = true := by
    rw [hcand, ht0]
    exact generateBayleafToken_isPfx oldBytes
  have hauth1 : resolveAuth (some (js "Bearer " ++ t₀)) req env
      (db.map (fun r => if r.email == e then { r with revoked := true } else r)) =
      .httpError 401 invalidKeyMsg := by
    rw [resolveAuth_token_reduction _ req env _ hpfx, hcand, hB]
  refine ⟨by rw [hdel], by rw [hdel]; exact hB, by rw [hdel]; exact hauth1, ?_⟩
  intro f c now k hpk
  rw [hdel] at hpk
  have hktok := postKey_created_tok e _ f c bytes now k hpk
  have hkne : k ≠ t₀ := by rw [hktok]; exact hfresh
  have hdb2 : findActiveByToken
      (postKey e (db.map (fun r => if r.email == e then { r with revoked := true } else r))
        f c bytes now).2 t₀ = none := by
    have hActiveNone : findActiveByEmail
        (db.map (fun r => if r.email == e then { r with revoked := true } else r)) e = none := by
      apply List.find?_eq_none.mpr
      intro x hx
      rw [List.mem_map] at hx
      obtain ⟨r, hrmem, rfl⟩ := hx
      by_cases hre : (r.email == e) = true
      · rw [if_pos hre]
        simp
      · rw [if_neg hre]
        simp [hre]
    unfold postKey
    rw [hActiveNone]
    cases hH : hsPair (findRevokedByEmail
        (db.map (fun r => if r.email == e then { r with revoked := true } else r)) e) f c with
    | none => exact hB
    | some hsv =>
      cases hRv : findRevokedByEmail
          (db.map (fun r => if r.email == e then { r with revoked := true } else r)) e with
      | none =>
        show List.find? _ (_ ++ _) = none
        rw [List.find?_append]
        rw [show List.find? (fun r => r.bayleaf_token == t₀ && !r.revoked)
              (db.map (fun r => if r.email == e then { r with revoked := true } else r)) = none
            from hB]
        have hne : (generateBayleafToken bytes == t₀) = false :=
          beq_eq_false_iff_ne.mpr hfresh
        simp [List.find?, hne]
      | some rv =>
        apply List.find?_eq_none.mpr
        intro x hx
        rw [List.mem_map] at hx
        obtain ⟨r, hrmem, rfl⟩ := hx
        by_cases hre : (r.email == e) = true
        · rw [if_pos hre]
          intro hcontra
          have h1 := ((Bool.and_eq_true _ _).mp hcontra).1
          exact hfresh (eq_of_beq h1)
        · rw [if_neg hre]
          exact List.find?_eq_none.mp hB r hrmem
  have hauth2 : resolveAuth (some (js "Bearer " ++ t₀)) req env
      (postKey e (db.map (fun r => if r.email == e then { r with revoked := true } else r))
        f c bytes now).2 = .httpError 401 invalidKeyMsg := by
    rw [resolveAuth_token_reduction _ req env _ hpfx, hcand, hdb2]
  rw [hdel]
  exact ⟨hkne, hdb2, hauth2⟩

/-- C5 witness: a one-row registry, revoke then recreate with a fresh
draw; the old token differs from the new one and resolves to the 401. -/
theorem claim_C5_witness :
    generateBayleafToken (List.replicate 16 2) ≠ generateBayleafToken (List.replicate 16 1) ∧
    resolveAuth (some (js "Bearer " ++ generateBayleafToken (List.replicate 16 1)))
        ⟨none, none⟩ ⟨[], [], js "P", []⟩
        (postKey (js "u@x")
          (deleteKey (js "u@x")
            [⟨js "u@x", generateBayleafToken (List.replicate 16 1), js "h0", js "sec0",
              false, 5⟩]).2
          (fun _ => some ⟨js "h0", false⟩) none (List.replicate 16 2) 9).2 =
      .httpError 401 invalidKeyMsg :=
  have h := claim_C5 (js "u@x") (generateBayleafToken (List.replicate 16 1))
    [⟨js "u@x", generateBayleafToken (List.replicate 16 1), js "h0", js "sec0", false, 5⟩]
    ⟨js "u@x", generateBayleafToken (List.replicate 16 1), js "h0", js "sec0", false, 5⟩
    (List.replicate 16 1) (List.replicate 16 2) ⟨none, none⟩ ⟨[], [], js "P", []⟩
    (by decide) rfl (by decide) (by decide)
  ⟨by decide,
   (h.2.2.2 (fun _ => some ⟨js "h0", false⟩) none 9
     (generateBayleafToken (List.replicate 16 2)) (by decide)).2.2⟩

/-! ## Claim C6: base64 lemmas -/

theorem b64Char_mem (n : Nat) : b64Char n ∈ b64Alphabet := by
  rcases lt_or_ge n 64 with h | h
  · unfold b64Char
    exact (by decide : ∀ m, m < 64 → b64Alphabet.getD m 'A' ∈ b64Alphabet) n h
  · unfold b64Char
    rw [List.getD_eq_default]
    · decide
    · have : b64Alphabet.length = 64 := by decide
      omega

theorem b64Val_b64Char {n : Nat} (h : n < 64) : b64Val (b64Char n) = some n :=
  (by decide : ∀ m, m < 64 → b64Val (b64Char m) = some m) n h

theorem btoa_shape : ∀ bs : List Nat,
    (btoaBytes bs).length % 4 = 0 ∧ ∀ c ∈ btoaBytes bs, c ∈ b64Alphabet ∨ c = '='
  | [] => by simp [btoaBytes]
  | [a] => by
    refine ⟨by simp [btoaBytes], ?_⟩
    intro c hc
    rcases hc with _ | ⟨_, _ | ⟨_, _ | ⟨_, hc⟩⟩⟩
    · exact Or.inl (b64Char_mem _)
    · exact Or.inl (b64Char_mem _)
    · exact Or.inr rfl
    · cases hc with
      | head => exact Or.inr rfl
      | tail _ hx => cases hx
  | [a, b] => by
    refine ⟨by simp [btoaBytes], ?_⟩
    intro c hc
    rcases hc with _ | ⟨_, _ | ⟨_, _ | ⟨_, hc⟩⟩⟩
    · exact Or.inl (b64Char_mem _)
    · exact Or.inl (b64Char_mem _)
    · exact Or.inl (b64Char_mem _)
    · cases hc with
      | head => exact Or.inr rfl
      | tail _ hx => cases hx
  | a :: b :: c :: rest => by
    have ih := btoa_shape rest
    constructor
    · have hlen : (btoaBytes (a :: b :: c :: rest)).length = (btoaBytes rest).length + 4 := by
        simp [btoaBytes]
      omega
    · intro x hx
      rcases hx with _ | ⟨_, _ | ⟨_, _ | ⟨_, hx⟩⟩⟩
      · exact Or.inl (b64Char_mem _)
      · exact Or.inl (b64Char_mem _)
      · exact Or.inl (b64Char_mem _)
      · cases hx with
        | head => exact Or.inl (b64Char_mem _)
        | tail _ hx => exact ih.2 x hx

theorem btoaCore_shape : ∀ bs : List Nat,
    ((btoaCore bs).length % 4 = 0 ∨ (btoaCore bs).length % 4 = 2 ∨
      (btoaCore bs).length % 4 = 3) ∧ ∀ c ∈ btoaCore bs, c ∈ b64Alphabet
  | [] => by simp [btoaCore]
  | [a] => by
    refine ⟨by simp [btoaCore], ?_⟩
    intro c hc
    rcases hc with _ | ⟨_, hc⟩
    · exact b64Char_mem _
    · cases hc with
      | head => exact b64Char_mem _
      | tail _ hx => cases hx
  | [a, b] => by
    refine ⟨by simp [btoaCore], ?_⟩
    intro c hc
    rcases hc with _ | ⟨_, _ | ⟨_, hc⟩⟩
    · exact b64Char_mem _
    · exact b64Char_mem _
    · cases hc with
      | head => exact b64Char_mem _
      | tail _ hx => cases hx
  | a :: b :: c :: rest => by
    have ih := btoaCore_shape rest
    constructor
    · have hlen : (btoaCore (a :: b :: c :: rest)).length = (btoaCore rest).length + 4 := by
        simp [btoaCore]
      rcases ih.1 with h | h | h <;> omega
    · intro x hx
      rcases hx with _ | ⟨_, _ | ⟨_, _ | ⟨_, hx⟩⟩⟩
      · exact b64Char_mem _
      · exact b64Char_mem _
      · exact b64Char_mem _
      · cases hx with
        | head => exact b64Char_mem _
        | tail _ hx => exact ih.2 x hx

theorem eq_ne_of_mem_alphabet {c : Char} (h : c ∈ b64Alphabet) :
    c ≠ '=' ∧ c ≠ '.' ∧ asciiWS c = false :=
  (by decide : ∀ x ∈ b64Alphabet, x ≠ '=' ∧ x ≠ '.' ∧ asciiWS x = false) c h

theorem btoa_split : ∀ bs : List Nat,
    btoaBytes bs = btoaCore bs ++
      (if bs.length % 3 = 0 then [] else if bs.length % 3 = 1 then ['=', '='] else ['='])
  | [] => rfl
  | [a] => rfl
  | [a, b] => rfl
  | a :: b :: c :: rest => by
    have ih := btoa_split rest
    have hmod : (a :: b :: c :: rest).length % 3 = rest.length % 3 := by
      simp [List.length_cons]
      omega
    show b64Char (a / 4) :: b64Char (a % 4 * 16 + b / 16) ::
        b64Char (b % 16 * 4 + c / 64) :: b64Char (c % 64) :: btoaBytes rest = _
    rw [ih, hmod]
    rfl

theorem stripPad_no_pad {Y : JStr} (hY : '=' ∉ Y) : stripPad Y = Y := by
  unfold stripPad
  cases hrev : Y.reverse with
  | nil => rfl
  | cons c1 r =>
    have hc1 : c1 ∈ Y := by
      rw [← List.mem_reverse, hrev]
      exact List.mem_cons_self c1 r
    have hne : ¬(c1 = '=') := fun e => hY (e ▸ hc1)
    cases r with
    | nil =>
      show (if c1 = '=' then [] else Y) = Y
      rw [if_neg hne]
    | cons c2 r2 =>
      show (if c1 = '=' then (if c2 = '=' then r2.reverse else (c2 :: r2).reverse) else Y) = Y
      rw [if_neg hne]

theorem stripPad_two (Y : JStr) :
    stripPad (Y ++ ['=', '=']) = Y := by
  unfold stripPad
  rw [show (Y ++ ['=', '=']).reverse = '=' :: '=' :: Y.reverse from by simp]
  show (if ('=' : Char) = '=' then
          (if ('=' : Char) = '=' then Y.reverse.reverse else ('=' :: Y.reverse).reverse)
        else Y ++ ['=', '=']) = Y
  rw [if_pos rfl, if_pos rfl, List.reverse_reverse]

theorem stripPad_one {Y : JStr} (hY : '=' ∉ Y) :
    stripPad (Y ++ ['=']) = Y := by
  unfold stripPad
  rw [show (Y ++ ['=']).reverse = '=' :: Y.reverse from by simp]
  cases hrev : Y.reverse with
  | nil =>
    have hYnil : Y = [] := by simpa using congrArg List.reverse hrev
    subst hYnil
    rfl
  | cons c2 r2 =>
    have hc2 : c2 ∈ Y := by
      rw [← List.mem_reverse, hrev]
      exact List.mem_cons_self c2 r2
    have hne : ¬(c2 = '=') := fun e => hY (e ▸ hc2)
    show (if ('=' : Char) = '=' then
            (if c2 = '=' then r2.reverse else (c2 :: r2).reverse)
          else Y ++ ['=']) = Y
    rw [if_pos rfl, if_neg hne, ← hrev, List.reverse_reverse]

theorem decode6_btoaCore : ∀ bs : List Nat, (∀ b ∈ bs, b < 256) →
    decode6 (btoaCore bs) = some bs
  | [], _ => rfl
  | [a], h => by
    have ha : a < 256 := h a (by simp)
    have h1 : a / 4 < 64 := by omega
    have h2 : a % 4 * 16 < 64 := by omega
    show decode6 [b64Char (a / 4), b64Char (a % 4 * 16)] = some [a]
    simp [decode6, b64Val_b64Char h1, b64Val_b64Char h2]
    omega
  | [a, b], h => by
    have ha : a < 256 := h a (by simp)
    have hb : b < 256 := h b (by simp)
    have h1 : a / 4 < 64 := by omega
    have h2 : a % 4 * 16 + b / 16 < 64 := by omega
    have h3 : b % 16 * 4 < 64 := by omega
    show decode6 [b64Char (a / 4), b64Char (a % 4 * 16 + b / 16), b64Char (b % 16 * 4)] =
      some [a, b]
    simp [decode6, b64Val_b64Char h1, b64Val_b64Char h2, b64Val_b64Char h3]
    constructor <;> omega
  | a :: b :: c :: rest, h => by
    have ha : a < 256 := h a (by simp)
    have hb : b < 256 := h b (by simp)
    have hc : c < 256 := h c (by simp)
    have ih := decode6_btoaCore rest (fun x hx => h x (by simp [hx]))
    have h1 : a / 4 < 64 := by omega
    have h2 : a % 4 * 16 + b / 16 < 64 := by omega
    have h3 : b % 16 * 4 + c / 64 < 64 := by omega
    have h4 : c % 64 < 64 := by omega
    show decode6 (b64Char (a / 4) :: b64Char (a % 4 * 16 + b / 16) ::
      b64Char (b % 16 * 4 + c / 64) :: b64Char (c % 64) :: btoaCore rest) =
      some (a :: b :: c :: rest)
    simp [decode6, b64Val_b64Char h1, b64Val_b64Char h2, b64Val_b64Char h3,
      b64Val_b64Char h4, ih]
    refine ⟨by omega, by omega, by omega⟩

theorem btoaCore_no_eq (bs : List Nat) : '=' ∉ btoaCore bs := fun h =>
  (eq_ne_of_mem_alphabet ((btoaCore_shape bs).2 _ h)).1 rfl

theorem atobClean_btoa (bs : List Nat) : atobClean (btoaBytes bs) = btoaCore bs := by
  unfold atobClean
  have hfilter : (btoaBytes bs).filter (fun c => !asciiWS c) = btoaBytes bs := by
    rw [List.filter_eq_self]
    intro c hc
    rcases (btoa_shape bs).2 c hc with hmem | rfl
    · simp [(eq_ne_of_mem_alphabet hmem).2.2]
    · decide
  rw [hfilter, if_pos (btoa_shape bs).1, btoa_split bs]
  by_cases h0 : bs.length % 3 = 0
  · rw [if_pos h0, List.append_nil]
    exact stripPad_no_pad (btoaCore_no_eq bs)
  · rw [if_neg h0]
    by_cases h1 : bs.length % 3 = 1
    · rw [if_pos h1]
      exact stripPad_two (btoaCore bs)
    · rw [if_neg h1]
      exact stripPad_one (btoaCore_no_eq bs)

theorem atob_btoa (bs : List Nat) (h : ∀ b ∈ bs, b < 256) :
    atobChars (btoaBytes bs) = some bs := by
  unfold atobChars
  rw [atobClean_btoa]
  rw [if_neg (by rcases (btoaCore_shape bs).1 with h1 | h1 | h1 <;> omega)]
  exact decode6_btoaCore bs h

theorem btoaBytes_ne_nil : ∀ {bs : List Nat}, bs ≠ [] → btoaBytes bs ≠ []
  | [], h => absurd rfl h
  | [_], _ => by simp [btoaBytes]
  | [_, _], _ => by simp [btoaBytes]
  | _ :: _ :: _ :: _, _ => by simp [btoaBytes]

theorem btoa_no_dot (bs : List Nat) : '.' ∉ btoaBytes bs := by
  intro h
  rcases (btoa_shape bs).2 _ h with hmem | heq
  · exact (eq_ne_of_mem_alphabet hmem).2.1 rfl
  · exact absurd heq (by decide)

/-! ## Claim C6: JSON string codec lemmas -/

theorem hexValC_hexDigitChar {d : Nat} (h : d < 16) :
    hexValC (hexDigitChar d) = some d :=
  (by decide : ∀ m, m < 16 → hexValC (hexDigitChar m) = some m) d h

theorem parseStrBodyF_close (f : Nat) (X : JStr) :
    parseStrBodyF (f + 1) (dqc :: X) = some ([], X) := by
  simp [parseStrBodyF]

theorem parseStrBodyF_step (f : Nat) (cs X : JStr) (u : Char)
    (hu : unescape1 cs = some (u, X)) :
    parseStrBodyF (f + 1) (bsc :: cs) =
      (parseStrBodyF f X).map (fun r => (u :: r.1, r.2)) := by
  have h1 : ¬(bsc = dqc) := by decide
  simp [parseStrBodyF, h1, hu]

theorem parseStrBodyF_plain (f : Nat) (c : Char) (X : JStr)
    (h1 : ¬c = dqc) (h2 : ¬c = bsc) :
    parseStrBodyF (f + 1) (c :: X) =
      (parseStrBodyF f X).map (fun r => (c :: r.1, r.2)) := by
  simp [parseStrBodyF, h1, h2]

theorem unescape1_u (c : Char) (X : JStr) (hc : c.toNat < 32) :
    unescape1 ('u' :: '0' :: '0' ::
      hexDigitChar (c.toNat / 16) :: hexDigitChar (c.toNat % 16) :: X) = some (c, X) := by
  have hhi : hexValC (hexDigitChar (c.toNat / 16)) = some (c.toNat / 16) :=
    hexValC_hexDigitChar (by omega)
  have hlo : hexValC (hexDigitChar (c.toNat % 16)) = some (c.toNat % 16) :=
    hexValC_hexDigitChar (by omega)
  have h00 : hexValC '0' = some 0 := by decide
  simp [unescape1, h00, hhi, hlo]
  rw [show c.toNat / 16 * 16 + c.toNat % 16 = c.toNat from by omega]
  exact Char.ofNat_toNat c

theorem escChar_length_pos (c : Char) : 1 ≤ (escChar c).length := by
  unfold escChar
  split_ifs <;> simp

theorem parseStrBodyF_escChars : ∀ (s : JStr) (fuel : Nat) (rest : JStr),
    (escChars s).length < fuel →
    parseStrBodyF fuel (escChars s ++ dqc :: rest) = some (s, rest) := by
  intro s
  induction s with
  | nil =>
    intro fuel rest hf
    cases fuel with
    | zero => omega
    | succ f =>
      show parseStrBodyF (f + 1) (dqc :: rest) = some ([], rest)
      exact parseStrBodyF_close f rest
  | cons c s ih =>
    intro fuel rest hf
    have hsplit : (escChars (c :: s)).length = (escChar c).length + (escChars s).length := by
      simp [escChars]
    have hpos := escChar_length_pos c
    cases fuel with
    | zero => omega
    | succ f =>
      have hs : (escChars s).length < f := by omega
      have hstep : escChars (c :: s) ++ dqc :: rest =
          escChar c ++ (escChars s ++ dqc :: rest) := by
        simp [escChars]
      rw [hstep]
      have ihf := ih f rest hs
      by_cases h1 : c = dqc
      · subst h1
        rw [show escChar dqc = [bsc, dqc] from by decide]
        rw [show ([bsc, dqc] : JStr) ++ (escChars s ++ dqc :: rest) =
              bsc :: dqc :: (escChars s ++ dqc :: rest) from rfl]
        rw [parseStrBodyF_step f (dqc :: (escChars s ++ dqc :: rest))
              (escChars s ++ dqc :: rest) dqc rfl, ihf]
        rfl
      · by_cases h2 : c = bsc
        · subst h2
          rw [show escChar bsc = [bsc, bsc] from by decide]
          rw [show ([bsc, bsc] : JStr) ++ (escChars s ++ dqc :: rest) =
                bsc :: bsc :: (escChars s ++ dqc :: rest) from rfl]
          rw [parseStrBodyF_step f (bsc :: (escChars s ++ dqc :: rest))
                (escChars s ++ dqc :: rest) bsc rfl, ihf]
          rfl
        · by_cases h3 : c = '\x08'
          · subst h3
            rw [show escChar '\x08' = [bsc, 'b'] from by decide]
            rw [show ([bsc, 'b'] : JStr) ++ (escChars s ++ dqc :: rest) =
                  bsc :: 'b' :: (escChars s ++ dqc :: rest) from rfl]
            rw [parseStrBodyF_step f ('b' :: (escChars s ++ dqc :: rest))
                  (escChars s ++ dqc :: rest) '\x08' rfl, ihf]
            rfl
          · by_cases h4 : c = '\x09'
            · subst h4
              rw [show escChar '\x09' = [bsc, 't'] from by decide]
              rw [show ([bsc, 't'] : JStr) ++ (escChars s ++ dqc :: rest) =
                    bsc :: 't' :: (escChars s ++ dqc :: rest) from rfl]
              rw [parseStrBodyF_step f ('t' :: (escChars s ++ dqc :: rest))
                    (escChars s ++ dqc :: rest) '\x09' rfl, ihf]
              rfl
            · by_cases h5 : c = '\x0a'
              · subst h5
                rw [show escChar '\x0a' = [bsc, 'n'] from by decide]
                rw [show ([bsc, 'n'] : JStr) ++ (escChars s ++ dqc :: rest) =
                      bsc :: 'n' :: (escChars s ++ dqc :: rest) from rfl]
                rw [parseStrBodyF_step f ('n' :: (escChars s ++ dqc :: rest))
                      (escChars s ++ dqc :: rest) '\x0a' rfl, ihf]
                rfl
              · by_cases h6 : c = '\x0c'
                · subst h6
                  rw [show escChar '\x0c' = [bsc, 'f'] from by decide]
                  rw [show ([bsc, 'f'] : JStr) ++ (escChars s ++ dqc :: rest) =
                        bsc :: 'f' :: (escChars s ++ dqc :: rest) from rfl]
                  rw [parseStrBodyF_step f ('f' :: (escChars s ++ dqc :: rest))
                        (escChars s ++ dqc :: rest) '\x0c' rfl, ihf]
                  rfl
                · by_cases h7 : c = '\x0d'
                  · subst h7
                    rw [show escChar '\x0d' = [bsc, 'r'] from by decide]
                    rw [show ([bsc, 'r'] : JStr) ++ (escChars s ++ dqc :: rest) =
                          bsc :: 'r' :: (escChars s ++ dqc :: rest) from rfl]
                    rw [parseStrBodyF_step f ('r' :: (escChars s ++ dqc :: rest))
                          (escChars s ++ dqc :: rest) '\x0d' rfl, ihf]
                    rfl
                  · by_cases h8 : c.toNat < 32
                    · have hesc : escChar c = [bsc, 'u', '0', '0',
                          hexDigitChar (c.toNat / 16), hexDigitChar (c.toNat % 16)] := by
                        unfold escChar
                        rw [if_neg h1, if_neg h2, if_neg h3, if_neg h4, if_neg h5,
                            if_neg h6, if_neg h7, if_pos h8]
                      rw [hesc]
                      rw [show ([bsc, 'u', '0', '0', hexDigitChar (c.toNat / 16),
                            hexDigitChar (c.toNat % 16)] : JStr) ++ (escChars s ++ dqc :: rest) =
                            bsc :: 'u' :: '0' :: '0' :: hexDigitChar (c.toNat / 16) ::
                              hexDigitChar (c.toNat % 16) :: (escChars s ++ dqc :: rest) from rfl]
                      rw [parseStrBodyF_step f _ _ _ (unescape1_u c _ h8), ihf]
                      rfl
                    · have hesc : escChar c = [c] := by
                        unfold escChar
                        rw [if_neg h1, if_neg h2, if_neg h3, if_neg h4, if_neg h5,
                            if_neg h6, if_neg h7, if_neg h8]
                      rw [hesc]
                      rw [show ([c] : JStr) ++ (escChars s ++ dqc :: rest) =
                            c :: (escChars s ++ dqc :: rest) from rfl]
                      rw [parseStrBodyF_plain f c _ h1 h2, ihf]
                      rfl

theorem parseStrBody_escChars (s rest : JStr) :
    parseStrBody (escChars s ++ dqc :: rest) = some (s, rest) := by
  unfold parseStrBody
  apply parseStrBodyF_escChars
  have : (escChars s ++ dqc :: rest).length = (escChars s).length + (rest.length + 1) := by
    simp
  omega

theorem natToChars_all_digits (n : Nat) : ∀ c ∈ natToChars n, c.isDigit = true := by
  intro c hc
  unfold natToChars at hc
  by_cases h0 : n = 0
  · rw [if_pos h0] at hc
    rcases hc with _ | ⟨_, hc⟩
    · decide
    · cases hc
  · rw [if_neg h0] at hc
    rw [List.mem_reverse, List.mem_map] at hc
    obtain ⟨d, hd, rfl⟩ := hc
    have hd10 : d < 10 := Nat.digits_lt_base (by norm_num) hd
    exact (by decide : ∀ m, m < 10 → (hexDigitChar m).isDigit = true) d hd10

theorem natToChars_ne_nil (n : Nat) : natToChars n ≠ [] := by
  unfold natToChars
  by_cases h0 : n = 0
  · rw [if_pos h0]
    simp
  · rw [if_neg h0]
    simp [Nat.digits_ne_nil_iff_ne_zero.mpr h0]

theorem foldr_digits_eq_ofDigits : ∀ L : List Nat,
    L.foldr (fun d a => a * 10 + d) 0 = Nat.ofDigits 10 L
  | [] => by simp [Nat.ofDigits]
  | d :: L => by
    rw [List.foldr_cons, foldr_digits_eq_ofDigits L, Nat.ofDigits_cons]
    omega

theorem natFromDigits_natToChars (n : Nat) : natFromDigits (natToChars n) = n := by
  unfold natToChars
  by_cases h0 : n = 0
  · rw [if_pos h0, h0]
    rfl
  · rw [if_neg h0]
    unfold natFromDigits
    rw [List.foldl_reverse]
    rw [List.foldr_map]
    have hcong : ∀ L : List Nat, (∀ d ∈ L, d < 10) →
        L.foldr (fun d a => a * 10 + ((hexDigitChar d).toNat - 48)) 0 =
        L.foldr (fun d a => a * 10 + d) 0 := by
      intro L
      induction L with
      | nil => intro _; rfl
      | cons d L ih =>
        intro hL
        have hd := hL d (List.mem_cons_self d L)
        rw [List.foldr_cons, List.foldr_cons, ih (fun x hx => hL x (List.mem_cons_of_mem _ hx))]
        rw [(by decide : ∀ m, m < 10 → (hexDigitChar m).toNat - 48 = m) d hd]
    rw [hcong _ (fun d hd => Nat.digits_lt_base (by norm_num) hd)]
    rw [foldr_digits_eq_ofDigits, Nat.ofDigits_digits]

theorem takeWhile_dropWhile_append {p : Char → Bool} : ∀ (A B : JStr),
    (∀ c ∈ A, p c = true) → (∀ c, B.head? = some c → p c = false) →
    (A ++ B).takeWhile p = A ∧ (A ++ B).dropWhile p = B
  | [], B, _, hB => by
    cases B with
    | nil => exact ⟨rfl, rfl⟩
    | cons b B =>
      have hb := hB b rfl
      constructor
      · simp [List.takeWhile_cons, hb]
      · simp [List.dropWhile_cons, hb]
  | a :: A, B, hA, hB => by
    have ha := hA a (List.mem_cons_self a A)
    have ih := takeWhile_dropWhile_append A B (fun c hc => hA c (List.mem_cons_of_mem _ hc)) hB
    constructor
    · simp [List.takeWhile_cons, ha, ih.1]
    · simp [List.dropWhile_cons, ha, ih.2]

theorem parseNatChars_natToChars (n : Nat) (rest : JStr)
    (hrest : ∀ c, rest.head? = some c → c.isDigit = false) :
    parseNatChars (natToChars n ++ rest) = some (n, rest) := by
  obtain ⟨ht, hd⟩ := takeWhile_dropWhile_append (natToChars n) rest
    (natToChars_all_digits n) hrest
  unfold parseNatChars
  rw [ht, hd]
  rw [if_neg (by simp [natToChars_ne_nil n])]
  rw [natFromDigits_natToChars]

theorem parseVal_renderVal (v : JVal) (rest : JStr)
    (hrest : ∀ c, rest.head? = some c → c.isDigit = false) :
    parseVal (renderVal v ++ rest) = some (v, rest) := by
  cases v with
  | s str =>
    have hassoc : renderVal (JVal.s str) ++ rest =
        dqc :: (escChars str ++ dqc :: rest) := by
      simp [renderVal, strLit]
    rw [hassoc]
    simp [parseVal, parseStrBody_escChars]
  | n m =>
    cases hnc : natToChars m with
    | nil => exact absurd hnc (natToChars_ne_nil m)
    | cons c ds =>
      have hcd : c.isDigit = true := by
        apply natToChars_all_digits m
        rw [hnc]
        exact List.mem_cons_self c ds
      have hcq : ¬c = dqc := by
        intro he
        rw [he] at hcd
        exact absurd hcd (by decide)
      have hassoc : renderVal (JVal.n m) ++ rest = c :: (ds ++ rest) := by
        show natToChars m ++ rest = c :: (ds ++ rest)
        rw [hnc]
        rfl
      rw [hassoc]
      have hback : c :: (ds ++ rest) = natToChars m ++ rest := by
        rw [hnc]
        rfl
      simp only [parseVal, if_neg hcq, hcd, if_true, if_pos]
      rw [hback, parseNatChars_natToChars m rest hrest]
      rfl

theorem parseFields_step_close (f : Nat) (k : JStr) (v : JVal) (rest : JStr)
    (acc : List (JStr × JVal)) :
    parseFields (f + 1) (renderPair (k, v) ++ rbc :: rest) acc =
      some (acc ++ [(k, v)], rest) := by
  have hin : renderPair (k, v) ++ rbc :: rest =
      dqc :: (escChars k ++ dqc :: (':' :: (renderVal v ++ rbc :: rest))) := by
    simp [renderPair, strLit]
  rw [hin]
  have hs := parseStrBody_escChars k (':' :: (renderVal v ++ rbc :: rest))
  have hv := parseVal_renderVal v (rbc :: rest) (by
    intro c hc
    simp at hc
    rw [← hc]
    decide)
  simp only [rbc] at hs hv ⊢
  simp [parseFields, hs, hv, rbc]

theorem parseFields_step_comma (f : Nat) (k : JStr) (v : JVal) (rest4 : JStr)
    (acc : List (JStr × JVal)) :
    parseFields (f + 1) (renderPair (k, v) ++ ',' :: rest4) acc =
      parseFields f rest4 (acc ++ [(k, v)]) := by
  have hin : renderPair (k, v) ++ ',' :: rest4 =
      dqc :: (escChars k ++ dqc :: (':' :: (renderVal v ++ ',' :: rest4))) := by
    simp [renderPair, strLit]
  rw [hin]
  have hs := parseStrBody_escChars k (':' :: (renderVal v ++ ',' :: rest4))
  have hv := parseVal_renderVal v (',' :: rest4) (by
    intro c hc
    simp at hc
    rw [← hc]
    decide)
  simp [parseFields, hs, hv]

theorem parseFields_render : ∀ (ps : List (JStr × JVal)) (acc : List (JStr × JVal))
    (fuel : Nat) (rest : JStr), ps ≠ [] → ps.length ≤ fuel →
    parseFields fuel (renderPairs ps ++ rbc :: rest) acc = some (acc ++ ps, rest)
  | [], _, _, _, hne, _ => absurd rfl hne
  | [p], acc, fuel, rest, _, hf => by
    cases fuel with
    | zero => simp at hf
    | succ f =>
      show parseFields (f + 1) (renderPair p ++ rbc :: rest) acc = some (acc ++ [p], rest)
      exact parseFields_step_close f p.1 p.2 rest acc
  | p :: q :: ps, acc, fuel, rest, _, hf => by
    cases fuel with
    | zero => simp at hf
    | succ f =>
      have hassoc : renderPairs (p :: q :: ps) ++ rbc :: rest =
          renderPair p ++ ',' :: (renderPairs (q :: ps) ++ rbc :: rest) := by
         show (renderPair p ++ ',' :: renderPairs (q :: ps)) ++ rbc :: rest = _
         simp
      rw [hassoc, parseFields_step_comma f p.1 p.2 _ acc]
      have ih := parseFields_render (q :: ps) (acc ++ [p]) f rest (by simp)
        (by simp at hf ⊢; omega)
      rw [ih]
      simp

theorem renderPairs_length : ∀ ps : List (JStr × JVal),
    ps.length ≤ (renderPairs ps).length
  | [] => le_refl 0
  | [kv] => by
    show 1 ≤ (renderPair kv).length
    simp [renderPair, strLit]
  | kv :: h :: t => by
    have ih := renderPairs_length (h :: t)
    show (kv :: h :: t).length ≤ (renderPair kv ++ ',' :: renderPairs (h :: t)).length
    simp [renderPair, strLit] at *
    omega

theorem parseSessionPayload_stringify : ∀ s : Session,
    parseSessionPayload (stringifySession s) = some s := by
  intro s
  obtain ⟨em, nm, pic, ex⟩ := s
  have hEN : (js "email" == js "name") = false := by decide
  have hEX : (js "email" == js "exp") = false := by decide
  have hEP : (js "email" == js "picture") = false := by decide
  have hNX : (js "name" == js "exp") = false := by decide
  have hNP : (js "name" == js "picture") = false := by decide
  have hXP : (js "exp" == js "picture") = false := by decide
  have hPX : (js "picture" == js "exp") = false := by decide
  cases pic with
  | none =>
    rw [show stringifySession ⟨em, nm, none, ex⟩ =
          lbc :: (renderPairs [(js "email", JVal.s em), (js "name", JVal.s nm),
            (js "exp", JVal.n ex)] ++ rbc :: []) from rfl]
    have hflds := parseFields_render
      [(js "email", JVal.s em), (js "name", JVal.s nm), (js "exp", JVal.n ex)] []
      ((renderPairs [(js "email", JVal.s em), (js "name", JVal.s nm),
        (js "exp", JVal.n ex)] ++ rbc :: []).length + 1) [] (by simp) (by
        have := renderPairs_length [(js "email", JVal.s em), (js "name", JVal.s nm),
          (js "exp", JVal.n ex)]
        simp at this ⊢
        omega)
    simp only [parseSessionPayload, if_true]
    rw [hflds]
    simp [lookupStr, lookupNat, List.find?, hEN, hEX, hEP, hNX, hNP, hXP]
  | some p =>
    rw [show stringifySession ⟨em, nm, some p, ex⟩ =
          lbc :: (renderPairs [(js "email", JVal.s em), (js "name", JVal.s nm),
            (js "picture", JVal.s p), (js "exp", JVal.n ex)] ++ rbc :: []) from rfl]
    have hflds := parseFields_render
      [(js "email", JVal.s em), (js "name", JVal.s nm), (js "picture", JVal.s p),
        (js "exp", JVal.n ex)] []
      ((renderPairs [(js "email", JVal.s em), (js "name", JVal.s nm),
        (js "picture", JVal.s p), (js "exp", JVal.n ex)] ++ rbc :: []).length + 1) []
      (by simp) (by
        have := renderPairs_length [(js "email", JVal.s em), (js "name", JVal.s nm),
          (js "picture", JVal.s p), (js "exp", JVal.n ex)]
        simp at this ⊢
        omega)
    simp only [parseSessionPayload, if_true]
    rw [hflds]
    simp [lookupStr, lookupNat, List.find?, hEN, hEX, hEP, hNX, hNP, hXP, hPX]

theorem map_ofNat_toNat (l : JStr) : (l.map Char.toNat).map Char.ofNat = l := by
  rw [List.map_map]
  have : ∀ c ∈ l, (Char.ofNat ∘ Char.toNat) c = id c := fun c _ => Char.ofNat_toNat c
  rw [List.map_congr_left this, List.map_id]

theorem stringifySession_ne_nil (s : Session) : stringifySession s ≠ [] := by
  unfold stringifySession
  simp

/-- C6: signing then verifying under the same secret and the same HMAC
primitive returns exactly the original session while it is unexpired and
invalid (none) once the expiry is in the past; verification is a total
function that returns invalid on a token without the delimiter, accepts
only unexpired sessions, and rejects any token whose signature part does
not decode to the recomputed HMAC of its payload part.  The HMAC is an
abstract deterministic function whose outputs are 32 bytes. -/
theorem claim_C6 (mac : JStr → JStr → List Nat) (s : Session) (secret : JStr) (now : Nat)
    (hmacLen : ∀ se m, (mac se m).length = 32)
    (hmacByte : ∀ se m, ∀ b ∈ mac se m, b < 256) :
    (∀ tok, createSessionToken mac s secret = some tok →
      verifySessionToken mac tok secret now = if s.exp < now then none else some s) ∧
    (∀ tok, '.' ∉ tok → verifySessionToken mac tok secret now = none) ∧
    (∀ tok sess, verifySessionToken mac tok secret now = some sess → ¬sess.exp < now) ∧
    (∀ pb sb, pb ≠ [] → (∀ b ∈ pb, b < 256) → (∀ b ∈ sb, b < 256) →
      sb ≠ mac secret (pb.map Char.ofNat) →
      verifySessionToken mac (btoaBytes pb ++ '.' :: btoaBytes sb) secret now = none) := by
  refine ⟨?_, ?_, ?_, ?_⟩
  · intro tok htok
    unfold createSessionToken at htok
    by_cases hall : (stringifySession s).all (fun c => c.toNat ≤ 255)
    · rw [if_pos hall] at htok
      injection htok with htok
      subst htok
      have hP : '.' ∉ btoaBytes ((stringifySession s).map Char.toNat) := btoa_no_dot _
      have hS : '.' ∉ btoaBytes (mac secret (stringifySession s)) := btoa_no_dot _
      have hsplit : splitOnChar '.'
          (btoaBytes ((stringifySession s).map Char.toNat) ++
            '.' :: btoaBytes (mac secret (stringifySession s))) =
          [btoaBytes ((stringifySession s).map Char.toNat),
           btoaBytes (mac secret (stringifySession s))] := by
        rw [splitOnChar_append hP, splitOnChar_of_not_mem hS]
      have hPne : btoaBytes ((stringifySession s).map Char.toNat) ≠ [] :=
        btoaBytes_ne_nil (by simp [stringifySession_ne_nil s])
      have hSne : btoaBytes (mac secret (stringifySession s)) ≠ [] :=
        btoaBytes_ne_nil (by
          intro he
          have := hmacLen secret (stringifySession s)
          rw [he] at this
          simp at this)
      have hpb : ∀ b ∈ (stringifySession s).map Char.toNat, b < 256 := by
        intro b hb
        rw [List.mem_map] at hb
        obtain ⟨c, hc, rfl⟩ := hb
        have := List.all_eq_true.mp hall c hc
        simp at this
        omega
      unfold verifySessionToken
      rw [hsplit]
      show (if (btoaBytes ((stringifySession s).map Char.toNat)).isEmpty ||
              (btoaBytes (mac secret (stringifySession s))).isEmpty then none
            else _) = _
      rw [List.isEmpty_eq_false.mpr hPne, List.isEmpty_eq_false.mpr hSne]
      simp only [Bool.or_self, Bool.false_eq_true, if_false]
      rw [atob_btoa _ hpb, atob_btoa _ (hmacByte secret (stringifySession s))]
      show (if mac secret (stringifySession s) =
              mac secret (((stringifySession s).map Char.toNat).map Char.ofNat) then
            match parseSessionPayload (((stringifySession s).map Char.toNat).map Char.ofNat) with
            | none => none
            | some t => if t.exp < now then none else some t
          else none) = if s.exp < now then none else some s
      rw [map_ofNat_toNat, if_pos rfl, parseSessionPayload_stringify s]
    · rw [if_neg hall] at htok
      exact absurd htok (by simp)
  · intro tok hdot
    unfold verifySessionToken
    rw [splitOnChar_of_not_mem hdot]
    rfl
  · intro tok sess h
    unfold verifySessionToken at h
    split at h
    · split at h
      · exact absurd h (by simp)
      · split at h
        · exact absurd h (by simp)
        · split at h
          · exact absurd h (by simp)
          · split at h
            · split at h
              · exact absurd h (by simp)
              · split at h
                · exact absurd h (by simp)
                · injection h with h
                  subst h
                  assumption
            · exact absurd h (by simp)
    · exact absurd h (by simp)
  · intro pb sb hpb hpb256 hsb256 hneq
    have hsplit : splitOnChar '.' (btoaBytes pb ++ '.' :: btoaBytes sb) =
        [btoaBytes pb, btoaBytes sb] := by
      rw [splitOnChar_append (btoa_no_dot _), splitOnChar_of_not_mem (btoa_no_dot _)]
    unfold verifySessionToken
    rw [hsplit]
    by_cases hsb : sb = []
    · subst hsb
      show (if (btoaBytes pb).isEmpty || (btoaBytes ([] : List Nat)).isEmpty then none
            else _) = _
      simp [btoaBytes]
    · show (if (btoaBytes pb).isEmpty || (btoaBytes sb).isEmpty then none else _) = _
      rw [List.isEmpty_eq_false.mpr (btoaBytes_ne_nil hpb),
          List.isEmpty_eq_false.mpr (btoaBytes_ne_nil hsb)]
      simp only [Bool.or_self, Bool.false_eq_true, if_false]
      rw [atob_btoa _ hpb256, atob_btoa _ hsb256]
      show (if sb = mac secret (pb.map Char.ofNat) then
            match parseSessionPayload (pb.map Char.ofNat) with
            | none => none
            | some t => if t.exp < now then none else some t
          else none) = none
      rw [if_neg hneq]

/-- C6 witness: a concrete session with a concrete (dummy, fixed-output)
HMAC round-trips at a time before expiry. -/
theorem claim_C6_witness :
    ((fun (_ _ : JStr) => List.replicate 32 0) = (fun (_ _ : JStr) => List.replicate 32 0)) ∧
    verifySessionToken (fun _ _ => List.replicate 32 0)
        ((createSessionToken (fun _ _ => List.replicate 32 0)
          ⟨js "a@ucsc.edu", js "Ada", none, 0⟩ (js "k")).getD []) (js "k") 0 =
      some ⟨js "a@ucsc.edu", js "Ada", none, 0⟩ :=
  have h := (claim_C6 (fun _ _ => List.replicate 32 0)
    ⟨js "a@ucsc.edu", js "Ada", none, 0⟩ (js "k") 0
    (fun _ _ => by simp)
    (fun _ _ b hb => by
      rw [List.eq_of_mem_replicate hb]
      omega)).1
  ⟨rfl, by
    have h2 := h ((createSessionToken (fun _ _ => List.replicate 32 0)
      ⟨js "a@ucsc.edu", js "Ada", none, 0⟩ (js "k")).getD []) (by decide)
    rw [h2]
    decide⟩

end Bayleaf
